import Mathlib

/-!
Verification of the Moving Battleships rules engine.

The definitions below are a shallow embedding of the TypeScript engine
(`src/engine/rules.ts`, `src/engine/types.ts`, `src/engine/data.ts`) into
Lean.  Mutation of the shared `GameState` aggregate is rendered as explicit
state passing; the JS `Set`/`Map` structures keyed by the cell key string
`"x,y"` are rendered as `Finset (Int × Int)` / association lists keyed by the
pair `(x, y)` (the key function is injective, so the pair is a faithful
composite key).  JS `number` coordinates are `Int`.

The engine directory in the working tree carries two revisions: the rules
module present on disk uses cumulative hull points (`hp`), and the newer
type declarations (`engine/types.ts`), the unit tests and `main.ts` use
per-segment hit tracking together with `resolveSalvo` / `computeSalvoTargets`
whose defining module is absent from the tree.  Definitions for that missing
salvo module are modelled from the specification (and pinned by the unit
tests); each such definition is marked `Modelled from the spec:` in its doc
comment.  Everything else is translated from the source on disk.
-/

namespace Battleship

/-- Board side length, `BOARD_SIZE` from `engine/data.ts`. -/
def BOARD_SIZE : Int := 10

/-- A board coordinate (`Coord` in `engine/types.ts`). -/
structure Coord where
  x : Int
  y : Int
deriving DecidableEq, Repr

/-- Player index, `PlayerId = 0 | 1`. -/
abbrev PlayerId := Fin 2

/-- Ship orientation. -/
inductive Orientation where
  | H
  | V
deriving DecidableEq, Repr

/-- Gun classes from `engine/types.ts`. -/
inductive GunType where
  | light
  | medium
  | heavy
deriving DecidableEq, Repr

/-- `GUN_DAMAGE` table from `engine/data.ts`. -/
def GUN_DAMAGE : GunType → Nat
  | GunType.light => 1
  | GunType.medium => 2
  | GunType.heavy => 3

/-- Ship classes. -/
inductive ShipTypeId where
  | scout
  | destroyer
  | cruiser
  | battleship
  | dreadnought
deriving DecidableEq, Repr

/-- Static ship template (`ShipTemplate`). -/
structure ShipTemplate where
  size : Nat
  maxHp : Nat
  move : Nat
  guns : List (GunType × Nat)
deriving DecidableEq, Repr

/-- The `SHIPS` catalog of `engine/data.ts`, keyed by type id
(`SHIP_BY_ID`). -/
def SHIP_BY_ID : ShipTypeId → ShipTemplate
  | ShipTypeId.scout => ⟨2, 3, 3, [(GunType.light, 1)]⟩
  | ShipTypeId.destroyer => ⟨3, 6, 2, [(GunType.light, 2)]⟩
  | ShipTypeId.cruiser => ⟨3, 8, 2, [(GunType.medium, 1)]⟩
  | ShipTypeId.battleship => ⟨4, 12, 1, [(GunType.medium, 2)]⟩
  | ShipTypeId.dreadnought => ⟨5, 18, 1, [(GunType.heavy, 1)]⟩

/-- A ship instance (`ShipInstance`, hull-point revision of the engine on
disk). -/
structure ShipInstance where
  uid : String
  typeId : ShipTypeId
  owner : PlayerId
  anchor : Coord
  orientation : Orientation
  hp : Nat
  placed : Bool
  sunk : Bool
deriving DecidableEq, Repr

/-- Ephemeral impact marker (`EphemeralImpactMarker`); `board` is rendered
as a Bool: `true` for the own board, `false` for the target board. -/
structure ImpactMarker where
  ownBoard : Bool
  shipUid : String
  target : Coord
deriving DecidableEq, Repr

/-- A movement order (`MoveOrder`); the destination field is named `to` in
the source, which is a reserved word here. -/
structure MoveOrder where
  shipUid : String
  dest : Coord
  orientation : Orientation
  skip : Bool := false
deriving DecidableEq, Repr

/-- Result of resolving one shot (`ShotResult`). -/
structure ShotResult where
  attacker : PlayerId
  defender : PlayerId
  shipUid : String
  target : Coord
  hit : Bool
  damage : Nat
  hitShipUid : Option String
  sunkShipUid : Option String
deriving DecidableEq, Repr

/-- Result of `resolveMovement` (`MoveResolveResult`). -/
structure MoveResolveResult where
  applied : List String
  rejected : List String
deriving DecidableEq, Repr

/-- Per-player mutable state (`PlayerState`).  Cell-key sets are sets of
`(x, y)` pairs. -/
structure PlayerState where
  id : PlayerId
  name : String
  isAI : Bool
  ships : List ShipInstance
  misses : Finset (Int × Int)
  ephemeralHits : Finset (Int × Int)
  ephemeralImpactMarkers : List ImpactMarker
  destroyedEnemyTypes : List ShipTypeId
  destroyedEnemyShipUids : List String
deriving DecidableEq

/-- Game phase enum (`Phase`). -/
inductive Phase where
  | menu
  | placement_p1
  | placement_p2
  | firing_p1
  | firing_p2
  | movement_p1
  | movement_p2
  | game_over
deriving DecidableEq, Repr

/-- Game mode. -/
inductive Mode where
  | onePlayer
  | twoPlayer
deriving DecidableEq, Repr

/-- The shared mutable aggregate (`GameState`). -/
structure GameState where
  mode : Mode
  phase : Phase
  round : Nat
  players : PlayerState × PlayerState
  firedThisRound : Finset String × Finset String
  shotLog : List ShotResult
  winner : Option PlayerId
deriving DecidableEq

/-- Indexing into the player pair (`state.players[i]`). -/
def getP (st : GameState) (i : PlayerId) : PlayerState :=
  if i = 0 then st.players.1 else st.players.2

/-- Replace the player at index `i`. -/
def setP (st : GameState) (i : PlayerId) (p : PlayerState) : GameState :=
  if i = 0 then { st with players := (p, st.players.2) }
  else { st with players := (st.players.1, p) }

/-- The players as a list, in index order (iteration over `state.players`). -/
def playersList (st : GameState) : List PlayerState :=
  [st.players.1, st.players.2]

/-- Indexing into the fired-this-round pair. -/
def getFired (st : GameState) (i : PlayerId) : Finset String :=
  if i = 0 then st.firedThisRound.1 else st.firedThisRound.2

/-- The opponent of a player (`attackerId === 0 ? 1 : 0`). -/
def otherPlayer (p : PlayerId) : PlayerId :=
  if p = 0 then 1 else 0

/-- Cell key (`key` in `rules.ts`): the string `"x,y"` is rendered as the
pair `(x, y)`, which the string determines injectively. -/
def key (c : Coord) : Int × Int :=
  (c.x, c.y)

/-- `inBounds` from `rules.ts`. -/
def inBounds (c : Coord) : Bool :=
  0 ≤ c.x && 0 ≤ c.y && c.x < BOARD_SIZE && c.y < BOARD_SIZE

/-- `shipCells` from `rules.ts`: `size` consecutive cells from the anchor,
along +x when horizontal and +y when vertical. -/
def shipCells (ship : ShipInstance) : List Coord :=
  let size := (SHIP_BY_ID ship.typeId).size
  (List.range size).map fun (i : Nat) =>
    ⟨ship.anchor.x + (if ship.orientation = Orientation.H then (i : Int) else 0),
     ship.anchor.y + (if ship.orientation = Orientation.V then (i : Int) else 0)⟩

/-- Membership in `occupyMap(players, ignoreUid)` of `rules.ts`: the cell is
covered by some placed, unsunk ship of either player whose uid is not the
ignored one.  (Only membership in the map is ever consulted by
`canMoveShip`.) -/
def occHas (players : List PlayerState) (ignoreUid : String) (c : Coord) : Bool :=
  players.any fun p => p.ships.any fun s =>
    s.placed && !s.sunk && s.uid != ignoreUid && (shipCells s).contains c

/-- Replace the first element satisfying the predicate (the JS pattern of
`find` followed by in-place mutation of the found object). -/
def replaceFirst (p : α → Bool) (f : α → α) : List α → List α
  | [] => []
  | x :: xs => if p x then f x :: xs else x :: replaceFirst p f xs

/-- `canPlaceShip` from `rules.ts`: the candidate footprint must be in
bounds and avoid every cell of the player's other placed, unsunk ships. -/
def canPlaceShip (player : PlayerState) (ship : ShipInstance) (anchor : Coord)
    (orientation : Orientation) : Bool :=
  let copy : ShipInstance := { ship with anchor := anchor, orientation := orientation }
  let ownPlaced := player.ships.filter fun s => s.uid != ship.uid && s.placed && !s.sunk
  (shipCells copy).all fun c =>
    inBounds c && !(ownPlaced.any fun s => (shipCells s).contains c)

/-- `placeShip` from `rules.ts`.  Returns the success flag together with the
updated player. -/
def placeShip (player : PlayerState) (shipUid : String) (anchor : Coord)
    (orientation : Orientation) : Bool × PlayerState :=
  match player.ships.find? (fun s => s.uid == shipUid) with
  | none => (false, player)
  | some ship =>
    if ship.sunk then (false, player)
    else if !canPlaceShip player ship anchor orientation then (false, player)
    else
      (true,
       { player with
         ships := replaceFirst (fun s => s.uid == shipUid)
           (fun s => { s with anchor := anchor, orientation := orientation, placed := true })
           player.ships })

/-- `allShipsPlaced` from `rules.ts`. -/
def allShipsPlaced (player : PlayerState) : Bool :=
  player.ships.all (·.placed)

/-- `shipAt` from `rules.ts`: the first placed, unsunk ship covering the
target cell. -/
def shipAt (player : PlayerState) (target : Coord) : Option ShipInstance :=
  player.ships.find? fun s =>
    s.placed && !s.sunk && (shipCells s).any fun c => c.x == target.x && c.y == target.y

/-- `shipDamage` from `rules.ts`: total salvo damage of the firing ship's
guns. -/
def shipDamage (ship : ShipInstance) : Nat :=
  ((SHIP_BY_ID ship.typeId).guns).foldl (fun acc g => acc + g.2 * GUN_DAMAGE g.1) 0

/-- The logging tail shared by the success paths of `resolveShot`
(`state.shotLog.push(result); state.firedThisRound[attackerId].add(shipUid)`). -/
def logShot (st : GameState) (a : PlayerId) (shipUid : String) (r : ShotResult) : GameState :=
  let st1 := { st with shotLog := st.shotLog ++ [r] }
  if a = 0 then
    { st1 with firedThisRound := (insert shipUid st1.firedThisRound.1, st1.firedThisRound.2) }
  else
    { st1 with firedThisRound := (st1.firedThisRound.1, insert shipUid st1.firedThisRound.2) }

/-- The defender-side mutation of `resolveShot`: the first placed, unsunk
ship covering the target takes the salvo damage and sinks at zero hull
points. -/
def applyDamage (p : PlayerState) (target : Coord) (damage : Nat) : PlayerState :=
  { p with
    ships := replaceFirst
      (fun s => s.placed && !s.sunk && (shipCells s).any fun c => c.x == target.x && c.y == target.y)
      (fun s => { s with hp := s.hp - damage, sunk := (s.hp - damage) == 0 })
      p.ships }

/-- The attacker-side bookkeeping of `resolveShot` on a kill. -/
def creditKill (p : PlayerState) (h : ShipInstance) (nowSunk : Bool) : PlayerState :=
  if nowSunk then
    { p with
      destroyedEnemyTypes := p.destroyedEnemyTypes ++ [h.typeId],
      destroyedEnemyShipUids :=
        if p.destroyedEnemyShipUids.contains h.uid
        then p.destroyedEnemyShipUids
        else p.destroyedEnemyShipUids ++ [h.uid] }
  else p

/-- `resolveShot` from `rules.ts` (hull-point revision on disk).  Returns
the shot result (`none` for a rejected request) together with the updated
state; the rejection paths of the source return before any mutation. -/
def resolveShot (st : GameState) (attackerId : PlayerId) (shipUid : String)
    (target : Coord) : Option ShotResult × GameState :=
  let defenderId := otherPlayer attackerId
  let attacker := getP st attackerId
  let defender := getP st defenderId
  match attacker.ships.find? (fun s => s.uid == shipUid && !s.sunk && s.placed) with
  | none => (none, st)
  | some ship =>
    if !inBounds target || decide (shipUid ∈ getFired st attackerId) then (none, st)
    else
      let damage := shipDamage ship
      match shipAt defender target with
      | none =>
        let result : ShotResult :=
          ⟨attackerId, defenderId, shipUid, target, false, damage, none, none⟩
        (some result, logShot st attackerId shipUid result)
      | some h =>
        let hp2 := h.hp - damage
        let nowSunk := hp2 == 0
        let result : ShotResult :=
          ⟨attackerId, defenderId, shipUid, target, true, damage, some h.uid,
           if nowSunk then some h.uid else none⟩
        (some result, logShot
          (setP (setP st defenderId (applyDamage defender target damage))
            attackerId (creditKill attacker h nowSunk))
          attackerId shipUid result)

/-- `resetFiringRound` from `rules.ts`. -/
def resetFiringRound (st : GameState) : GameState :=
  { st with firedThisRound := (∅, ∅) }

/-- `canShipFire` from `rules.ts`. -/
def canShipFire (st : GameState) (playerId : PlayerId) (shipUid : String) : Bool :=
  match (getP st playerId).ships.find? (fun s => s.uid == shipUid) with
  | none => false
  | some ship =>
    if ship.sunk || !ship.placed then false
    else !decide (shipUid ∈ getFired st playerId)

/-- `hasUnfiredShips` from `rules.ts`. -/
def hasUnfiredShips (st : GameState) (playerId : PlayerId) : Bool :=
  (getP st playerId).ships.any fun s => canShipFire st playerId s.uid

/-- `nextFiringPlayer` from `rules.ts`. -/
def nextFiringPlayer (st : GameState) (current : PlayerId) : Option PlayerId :=
  if hasUnfiredShips st (otherPlayer current) then some (otherPlayer current)
  else if hasUnfiredShips st current then some current
  else none

/-- `clearEphemeral` from `rules.ts`. -/
def clearEphemeral (st : GameState) : GameState :=
  let p0 := { st.players.1 with ephemeralHits := ∅, ephemeralImpactMarkers := [] }
  let p1 := { st.players.2 with ephemeralHits := ∅, ephemeralImpactMarkers := [] }
  { st with players := (p0, p1) }

/-- `hasWinner` from `rules.ts`. -/
def hasWinner (st : GameState) : Option PlayerId :=
  let alive0 := st.players.1.ships.any fun s => !s.sunk
  let alive1 := st.players.2.ships.any fun s => !s.sunk
  if !alive0 && alive1 then some 1
  else if !alive1 && alive0 then some 0
  else none

/-- `shipMoveRange` from `rules.ts`. -/
def shipMoveRange (ship : ShipInstance) : Nat :=
  (SHIP_BY_ID ship.typeId).move

/-- `manhattan` from `rules.ts`. -/
def manhattan (a b : Coord) : Nat :=
  ((a.x - b.x).natAbs + (a.y - b.y).natAbs)

/-- One footprint check of the movement walk: every cell of the ship is in
bounds and not occupied (the body of the `for` loops in `canMoveShip`). -/
def footOk (s : ShipInstance) (occ : Coord → Bool) : Bool :=
  (shipCells s).all fun c => inBounds c && !occ c

/-- The cursor walk of `canMoveShip`: starting from `cursor`, apply `step`
`n` times, checking the ship's footprint at every intermediate cursor.  The
source's `while` loops take exactly `|to.x - anchor.x|` (resp. `|to.y -
anchor.y|`) unit steps, which is the fuel `n`. -/
def walkOk (ship : ShipInstance) (occ : Coord → Bool) (step : Coord → Coord) :
    Nat → Coord → Bool
  | 0, _ => true
  | n + 1, cursor =>
    let c' := step cursor
    footOk { ship with anchor := c' } occ && walkOk ship occ step n c'

/-- `canMoveShip` from `rules.ts`.  The x-phase of the source's walk ends
with the cursor at `(to.x, anchor.y)`, which is where the y-phase starts. -/
def canMoveShip (st : GameState) (playerId : PlayerId) (order : MoveOrder) : Bool :=
  match (getP st playerId).ships.find? (fun s => s.uid == order.shipUid && s.placed && !s.sunk) with
  | none => false
  | some ship =>
    if order.skip then true
    else if shipMoveRange ship < manhattan ship.anchor order.dest then false
    else
      let occ : Coord → Bool := occHas (playersList st) ship.uid
      let corner : Coord := ⟨order.dest.x, ship.anchor.y⟩
      walkOk ship occ (fun cur => ⟨cur.x + (order.dest.x - cur.x).sign, cur.y⟩)
        (order.dest.x - ship.anchor.x).natAbs ship.anchor &&
      walkOk ship occ (fun cur => ⟨cur.x, cur.y + (order.dest.y - cur.y).sign⟩)
        (order.dest.y - corner.y).natAbs corner &&
      footOk { ship with anchor := order.dest, orientation := order.orientation } occ

/-- The owner decoding `uid.startsWith('0-') ? 0 : 1` in `resolveMovement`,
written as a character-list match so that it evaluates by kernel
reduction. -/
def prefixPid (uid : String) : PlayerId :=
  match uid.data with
  | '0' :: '-' :: _ => 0
  | _ => 1

/-- Lookup in the tentative-proposal map (`proposals.get`); the map is an
association list where the most recent `set` is at the head. -/
def lookupProp (props : List (String × ShipInstance)) (uid : String) : Option ShipInstance :=
  (props.find? (fun e => e.1 == uid)).map (·.2)

/-- Accumulator of the proposal-building loop of `resolveMovement`. -/
structure P1Acc where
  proposals : List (String × ShipInstance)
  applied : List String
  rejected : List String
deriving Repr

/-- One iteration of the proposal loop of `resolveMovement`. -/
def processOrder (st : GameState) (acc : P1Acc) (order : MoveOrder) : P1Acc :=
  let pid := prefixPid order.shipUid
  let player := getP st pid
  match player.ships.find? (fun s => s.uid == order.shipUid) with
  | none => { acc with rejected := acc.rejected ++ [order.shipUid] }
  | some ship =>
    if ship.sunk || !ship.placed then
      { acc with rejected := acc.rejected ++ [order.shipUid] }
    else if order.skip then
      { acc with proposals := (ship.uid, ship) :: acc.proposals,
                 applied := acc.applied ++ [ship.uid] }
    else if canMoveShip st pid order then
      { acc with
        proposals := (ship.uid,
          { ship with anchor := order.dest, orientation := order.orientation }) :: acc.proposals,
        applied := acc.applied ++ [ship.uid] }
    else
      { acc with rejected := acc.rejected ++ [ship.uid] }

/-- The proposal-building pass of `resolveMovement` over all submitted
orders. -/
def phase1 (st : GameState) (orders : List MoveOrder) : P1Acc :=
  orders.foldl (processOrder st) ⟨[], [], []⟩

/-- Push a uid unless already present (`if (!rejected.includes(u)) rejected.push(u)`). -/
def pushUniq (l : List String) (u : String) : List String :=
  if l.contains u then l else l ++ [u]

/-- Accumulator of the end-position occupancy pass: the `endOcc` map (an
association list with unique keys) and the rejected list. -/
structure P2Acc where
  endOcc : List ((Int × Int) × String)
  rejected : List String
deriving Repr

/-- Lookup in the end-occupancy map. -/
def lookupOcc (occ : List ((Int × Int) × String)) (k : Int × Int) : Option String :=
  (occ.find? (fun e => e.1 == k)).map (·.2)

/-- One cell of the end-position occupancy pass: on a collision with a
different uid both ships are rejected (the map entry is left in place,
matching the source, where the `set` of an existing uid is the identity). -/
def passCell (uid : String) (acc : P2Acc) (c : Coord) : P2Acc :=
  match lookupOcc acc.endOcc (key c) with
  | some existing =>
    if existing ≠ uid then
      { acc with rejected := pushUniq (pushUniq acc.rejected existing) uid }
    else acc
  | none => { acc with endOcc := (key c, uid) :: acc.endOcc }

/-- One ship of the end-position occupancy pass: placed, unsunk ships are
examined at their tentative positions (`proposals.get(ship.uid) ?? ship`). -/
def passShip (props : List (String × ShipInstance)) (acc : P2Acc) (ship : ShipInstance) : P2Acc :=
  if !ship.placed || ship.sunk then acc
  else
    let proposal := (lookupProp props ship.uid).getD ship
    (shipCells proposal).foldl (passCell proposal.uid) acc

/-- The end-position occupancy pass of `resolveMovement` over both players'
ships. -/
def phase2 (st : GameState) (props : List (String × ShipInstance))
    (rejected : List String) : P2Acc :=
  (playersList st).foldl (fun acc p => p.ships.foldl (passShip props) acc) ⟨[], rejected⟩

/-- The commit step of `resolveMovement` for one ship: rejected ships and
ships whose proposal is the ship itself (skip orders produce the unchanged
ship as their proposal) are left alone; otherwise the tentative anchor and
orientation are written back. -/
def commitShip (rejected : List String) (props : List (String × ShipInstance))
    (ship : ShipInstance) : ShipInstance :=
  if rejected.contains ship.uid then ship
  else
    match lookupProp props ship.uid with
    | none => ship
    | some proposal =>
      if proposal = ship then ship
      else { ship with anchor := proposal.anchor, orientation := proposal.orientation }

/-- First-occurrence deduplication (`[...new Set(xs)]`). -/
def dedupKeepFirst (l : List String) : List String :=
  l.foldl pushUniq []

/-- `resolveMovement` from `rules.ts`: validate all orders into tentative
proposals, reject every end-position collision symmetrically, then commit
the surviving proposals. -/
def resolveMovement (st : GameState) (p1Orders p2Orders : List MoveOrder) :
    MoveResolveResult × GameState :=
  let acc1 := phase1 st (p1Orders ++ p2Orders)
  let acc2 := phase2 st acc1.proposals acc1.rejected
  let p0 := { st.players.1 with
    ships := st.players.1.ships.map (commitShip acc2.rejected acc1.proposals) }
  let p1 := { st.players.2 with
    ships := st.players.2.ships.map (commitShip acc2.rejected acc1.proposals) }
  (⟨dedupKeepFirst acc1.applied, dedupKeepFirst acc2.rejected⟩,
   { st with players := (p0, p1) })

/-- The movement-resolution housekeeping of `resolveMovementPhase` in
`main.ts` (two-player path, UI notices elided): run the resolver, clear the
ephemeral markers, clear both players' targeting misses (the source comment
reads "Clear targeting misses at the start of each new round (per latest
rule tweak)"), advance the round counter, reset the fired sets and return
to the firing phase. -/
def resolveMovementPhase (st : GameState) (o1 o2 : List MoveOrder) : GameState :=
  let st1 := (resolveMovement st o1 o2).2
  let st2 := clearEphemeral st1
  let st3 := { st2 with players :=
    ({ st2.players.1 with misses := ∅ }, { st2.players.2 with misses := ∅ }) }
  let st4 := { st3 with round := st3.round + 1 }
  let st5 := resetFiringRound st4
  { st5 with phase := Phase.firing_p1 }

/-- A ship instance of the segment-hit revision (`ShipInstance` in
`src/engine/types.ts` on disk): damage is the set of struck segment
indices `0 .. size-1`, persisting across moves and rotations. -/
structure SegShip where
  uid : String
  typeId : ShipTypeId
  owner : PlayerId
  anchor : Coord
  orientation : Orientation
  hits : Finset Nat
  placed : Bool
  sunk : Bool
deriving DecidableEq

/-- Footprint of a segment-hit ship; same derivation as `shipCells`. -/
def segShipCells (ship : SegShip) : List Coord :=
  let size := (SHIP_BY_ID ship.typeId).size
  (List.range size).map fun (i : Nat) =>
    ⟨ship.anchor.x + (if ship.orientation = Orientation.H then (i : Int) else 0),
     ship.anchor.y + (if ship.orientation = Orientation.V then (i : Int) else 0)⟩

/-- Per-shell result of the segment-hit revision (`ShotResult` in
`src/engine/types.ts` carries no damage total). -/
structure SegCellResult where
  target : Coord
  hit : Bool
  hitShipUid : Option String
  sunkShipUid : Option String
deriving DecidableEq, Repr

/-- Modelled from the spec: the struck segment index, "the index within
that enemy ship's footprint corresponding to the struck cell". -/
def struckIndex (s : SegShip) (t : Coord) : Nat :=
  (segShipCells s).findIdx (fun c => c == t)

/-- Modelled from the spec: the damage applied to a struck ship — exactly
one segment index is added to the hit set, and the ship becomes sunk when
the hit-set size reaches the template size (a count of distinct damaged
segments, not a cumulative damage total). -/
def damagedShip (s : SegShip) (t : Coord) : SegShip :=
  let h := insert (struckIndex s t) s.hits
  { s with hits := h, sunk := h.card == (SHIP_BY_ID s.typeId).size }

/-- Modelled from the spec: the per-cell resolution step of the missing
segment-hit rules module.  "a cell is a hit iff some placed, unsunk enemy
ship occupies it.  On hit, exactly one enemy segment ... is added to that
ship's hit set."  Operates on the defender's ship list. -/
def resolveShotCell (defenders : List SegShip) (target : Coord) :
    SegCellResult × List SegShip :=
  match defenders.find? (fun s => s.placed && !s.sunk && (segShipCells s).contains target) with
  | none => (⟨target, false, none, none⟩, defenders)
  | some ship =>
    let dmg := damagedShip ship target
    (⟨target, true, some ship.uid, if dmg.sunk then some ship.uid else none⟩,
     replaceFirst (fun s => s.placed && !s.sunk && (segShipCells s).contains target)
       (fun s => damagedShip s target) defenders)

/-- Modelled from the spec: `computeSalvoTargets` of the missing salvo
module.  "the k shells land on a contiguous run of k cells through the
target cell along the chosen orientation axis, centered as evenly as
possible on the clicked cell ... ties broken toward the lower index"; the
run therefore starts `(k-1)/2` cells below the clicked cell (the unit test
pins the two-gun case to the cells at offsets 0 and +1). -/
def computeSalvoTargets (t : Coord) (o : Orientation) (k : Nat) : List Coord :=
  (List.range k).map fun (i : Nat) =>
    let off : Int := (i : Int) - (((k - 1) / 2 : Nat) : Int)
    match o with
    | Orientation.H => ⟨t.x + off, t.y⟩
    | Orientation.V => ⟨t.x, t.y + off⟩

/-- Modelled from the spec: the salvo loop — "each of the k computed target
cells is resolved independently", one after the other against the evolving
defender list. -/
def resolveCells (defenders : List SegShip) : List Coord → List SegCellResult × List SegShip
  | [] => ([], defenders)
  | c :: cs =>
    let step := resolveShotCell defenders c
    let rest := resolveCells step.2 cs
    (step.1 :: rest.1, rest.2)

/-- Modelled from the spec: the defender-side `resolveSalvo` of the missing
salvo module, after the firing-validity gate.  "Cells that fall out of
bounds are still counted as fired-upon but cannot hit anything." -/
def resolveSalvo (defenders : List SegShip) (t : Coord) (o : Orientation) (k : Nat) :
    List SegCellResult × List SegShip :=
  resolveCells defenders (computeSalvoTargets t o k)

/-- The coordinate of a cell along a salvo orientation axis. -/
def axisCoord (o : Orientation) (c : Coord) : Int :=
  match o with
  | Orientation.H => c.x
  | Orientation.V => c.y

/-- Shift a cell along a salvo orientation axis. -/
def axisShift (o : Orientation) (c : Coord) (d : Int) : Coord :=
  match o with
  | Orientation.H => ⟨c.x + d, c.y⟩
  | Orientation.V => ⟨c.x, c.y + d⟩

/-- The ships of both players in index order. -/
def allShips (st : GameState) : List ShipInstance :=
  st.players.1.ships ++ st.players.2.ships

/-- Data-model well-formedness from the specification: ship uids are
"unique within the game". -/
def UidsNodup (st : GameState) : Prop :=
  ((allShips st).map (·.uid)).Nodup

/-- Claim-language reading of "has at least one unfired live placed
ship". -/
def HasUnfiredLive (st : GameState) (p : PlayerId) : Prop :=
  ∃ s ∈ (getP st p).ships, s.placed = true ∧ s.sunk = false ∧ s.uid ∉ getFired st p

/-- Claim-language obstacle predicate: the cell is occupied by some placed,
unsunk ship of either player other than the moving ship. -/
def cellBlocked (st : GameState) (selfUid : String) (c : Coord) : Prop :=
  ∃ p ∈ playersList st, ∃ s ∈ p.ships,
    s.placed = true ∧ s.sunk = false ∧ s.uid ≠ selfUid ∧ c ∈ shipCells s

/-- Claim-language footprint condition: in bounds and unobstructed. -/
def footprintClear (st : GameState) (selfUid : String) (s : ShipInstance) : Prop :=
  ∀ c ∈ shipCells s, inBounds c = true ∧ ¬ cellBlocked st selfUid c

/-- Declarative reading of the movement-legality claim for a non-skip order
on the given ship: range bound, every intermediate footprint of the
x-then-y walk (current orientation), and the final footprint (requested
orientation). -/
def canMoveShipSpec (st : GameState) (order : MoveOrder) (ship : ShipInstance) : Prop :=
  manhattan ship.anchor order.dest ≤ shipMoveRange ship ∧
  (∀ j : Nat, 1 ≤ j → j ≤ (order.dest.x - ship.anchor.x).natAbs →
    footprintClear st ship.uid
      { ship with anchor := ⟨ship.anchor.x + j * (order.dest.x - ship.anchor.x).sign, ship.anchor.y⟩ }) ∧
  (∀ j : Nat, 1 ≤ j → j ≤ (order.dest.y - ship.anchor.y).natAbs →
    footprintClear st ship.uid
      { ship with anchor := ⟨order.dest.x, ship.anchor.y + j * (order.dest.y - ship.anchor.y).sign⟩ }) ∧
  footprintClear st ship.uid { ship with anchor := order.dest, orientation := order.orientation }

/-- The spatial invariant of the specification for one fleet: every placed,
unsunk ship occupies only in-bounds cells and does not overlap any other
placed, unsunk ship of the same fleet. -/
def ShipsOk (l : List ShipInstance) : Prop :=
  ∀ i : Fin l.length, (l.get i).placed = true → (l.get i).sunk = false →
    ((∀ c ∈ shipCells (l.get i), inBounds c = true) ∧
     ∀ j : Fin l.length, (j : Nat) ≠ (i : Nat) → (l.get j).placed = true →
       (l.get j).sunk = false →
       ∀ c, c ∈ shipCells (l.get i) → c ∉ shipCells (l.get j))

/-- The spatial invariant for both players. -/
def StateInv (st : GameState) : Prop :=
  ∀ i : PlayerId, ShipsOk (getP st i).ships

/-- The tentative post-move ship used by the end-position occupancy pass of
`resolveMovement` (`proposals.get(ship.uid) ?? ship`). -/
def tentativeShip (st : GameState) (orders : List MoveOrder) (s : ShipInstance) : ShipInstance :=
  (lookupProp (phase1 st orders).proposals s.uid).getD s

/-- A fresh ship instance at a position (fixture helper). -/
def mkShip (uid : String) (t : ShipTypeId) (o : PlayerId) (a : Coord)
    (orient : Orientation) (pl : Bool) : ShipInstance :=
  ⟨uid, t, o, a, orient, (SHIP_BY_ID t).maxHp, pl, false⟩

/-- Fixture: player 0 with a scout and a destroyer placed. -/
def pl0 : PlayerState :=
  ⟨0, "P1", false,
   [mkShip "0-scout" ShipTypeId.scout 0 ⟨1, 1⟩ Orientation.H true,
    mkShip "0-destroyer" ShipTypeId.destroyer 0 ⟨5, 1⟩ Orientation.V true],
   ∅, ∅, [], [], []⟩

/-- Fixture: player 1 with a scout placed. -/
def pl1 : PlayerState :=
  ⟨1, "P2", false, [mkShip "1-scout" ShipTypeId.scout 1 ⟨0, 3⟩ Orientation.H true],
   ∅, ∅, [], [], []⟩

/-- Fixture game state used by the witnesses. -/
def stT : GameState :=
  ⟨Mode.twoPlayer, Phase.firing_p1, 1, (pl0, pl1), (∅, ∅), [], none⟩

/-- Fixture: one placed scout per player, three rows apart. -/
def stM : GameState :=
  ⟨Mode.twoPlayer, Phase.movement_p1, 1,
   (⟨0, "P1", false, [mkShip "0-scout" ShipTypeId.scout 0 ⟨0, 0⟩ Orientation.H true], ∅, ∅, [], [], []⟩,
    ⟨1, "P2", false, [mkShip "1-scout" ShipTypeId.scout 1 ⟨0, 3⟩ Orientation.H true], ∅, ∅, [], [], []⟩),
   (∅, ∅), [], none⟩

/-- Fixture: a cruiser for player 0 and a target scout for player 1. -/
def stF : GameState :=
  ⟨Mode.twoPlayer, Phase.firing_p1, 1,
   (⟨0, "P1", false, [mkShip "0-cruiser" ShipTypeId.cruiser 0 ⟨0, 0⟩ Orientation.H true], ∅, ∅, [], [], []⟩,
    ⟨1, "P2", false, [mkShip "1-scout" ShipTypeId.scout 1 ⟨2, 2⟩ Orientation.H true], ∅, ∅, [], [], []⟩),
   (∅, ∅), [], none⟩

/-- Fixture: player 0 has recorded a miss at cell (3, 3). -/
def st9 : GameState :=
  ⟨Mode.twoPlayer, Phase.movement_p2, 1,
   (⟨0, "P1", false, [mkShip "0-scout" ShipTypeId.scout 0 ⟨0, 0⟩ Orientation.H true],
     {(3, 3)}, ∅, [], [], []⟩,
    ⟨1, "P2", false, [mkShip "1-scout" ShipTypeId.scout 1 ⟨0, 3⟩ Orientation.H true], ∅, ∅, [], [], []⟩),
   (∅, ∅), [], none⟩

/-- Fixture: a fresh defending scout of the segment-hit revision. -/
def segScout : SegShip :=
  ⟨"1-scout", ShipTypeId.scout, 1, ⟨2, 2⟩, Orientation.H, ∅, true, false⟩

/-! Helper lemmas. -/

theorem getP_setP (st : GameState) (i j : PlayerId) (p : PlayerState) :
    getP (setP st i p) j = if j = i then p else getP st j := by
  fin_cases i <;> fin_cases j <;> simp [getP, setP]

theorem key_inj : Function.Injective key := by
  intro a b h
  cases a; cases b
  simpa [key, Coord.mk.injEq] using h

theorem players_logShot (st : GameState) (a : PlayerId) (uid : String) (r : ShotResult) :
    (logShot st a uid r).players = st.players := by
  unfold logShot
  split <;> rfl

theorem getP_eq_of_players_eq {st st2 : GameState} (h : st.players = st2.players)
    (i : PlayerId) : getP st i = getP st2 i := by
  unfold getP
  rw [h]

theorem creditKill_misses (p : PlayerState) (h : ShipInstance) (b : Bool) :
    (creditKill p h b).misses = p.misses := by
  unfold creditKill
  split <;> rfl

theorem creditKill_ships (p : PlayerState) (h : ShipInstance) (b : Bool) :
    (creditKill p h b).ships = p.ships := by
  unfold creditKill
  split <;> rfl

theorem applyDamage_misses (p : PlayerState) (t : Coord) (d : Nat) :
    (applyDamage p t d).misses = p.misses := rfl

theorem shotLog_logShot (st : GameState) (a : PlayerId) (uid : String) (r : ShotResult) :
    (logShot st a uid r).shotLog = st.shotLog ++ [r] := by
  unfold logShot
  split <;> rfl

theorem getFired_logShot_self (st : GameState) (a : PlayerId) (uid : String) (r : ShotResult) :
    getFired (logShot st a uid r) a = insert uid (getFired st a) := by
  unfold logShot getFired
  fin_cases a <;> simp

theorem resolveShot_misses (st : GameState) (a : PlayerId) (uid : String) (t : Coord)
    (i : PlayerId) :
    (getP (resolveShot st a uid t).2 i).misses = (getP st i).misses := by
  unfold resolveShot
  cases hf : (getP st a).ships.find? (fun s => s.uid == uid && !s.sunk && s.placed) with
  | none => simp only [hf]
  | some ship =>
    simp only [hf]
    split
    · rfl
    · cases hs : shipAt (getP st (otherPlayer a)) t with
      | none =>
        simp only [hs]
        rw [getP_eq_of_players_eq (players_logShot _ _ _ _) i]
      | some h =>
        simp only [hs]
        rw [getP_eq_of_players_eq (players_logShot _ _ _ _) i]
        rw [getP_setP, getP_setP]
        by_cases hia : i = a
        · rw [if_pos hia, creditKill_misses]
          rw [hia]
        · rw [if_neg hia]
          by_cases hid : i = otherPlayer a
          · rw [if_pos hid, applyDamage_misses, hid]
          · rw [if_neg hid]

/-! C8: round lifecycle after movement resolution. -/

/-- C8: after the movement-resolution housekeeping completes, both players'
ephemeral hit sets and impact-marker lists are empty, both fired-this-round
sets are empty, and the round number has incremented by exactly one. -/
theorem roundLifecycle_after_resolveMovementPhase (st : GameState)
    (o1 o2 : List MoveOrder) :
    (∀ i : PlayerId, (getP (resolveMovementPhase st o1 o2) i).ephemeralHits = ∅ ∧
      (getP (resolveMovementPhase st o1 o2) i).ephemeralImpactMarkers = []) ∧
    (∀ i : PlayerId, getFired (resolveMovementPhase st o1 o2) i = ∅) ∧
    (resolveMovementPhase st o1 o2).round = st.round + 1 := by
  refine ⟨fun i => ?_, fun i => ?_, rfl⟩ <;> fin_cases i <;>
    simp [resolveMovementPhase, resolveMovement, resetFiringRound, clearEphemeral,
      getP, getFired]

/-! C9: miss markers are not permanent. -/

/-- C9 counterexample: a miss recorded at cell (3, 3) for player 0 is
removed again by the subsequent movement-resolution housekeeping, so a
miss-set entry is not retained for the remainder of the game. -/
theorem misses_cleared_counterexample :
    (3, 3) ∈ (getP st9 0).misses ∧
    (3, 3) ∉ (getP (resolveMovementPhase st9 [] []) 0).misses := by
  decide

/-- C9 as amended: firing never removes miss-set entries (resolveShot
leaves both players' miss sets unchanged), but the miss sets are not
permanent: the movement-resolution housekeeping clears both players' miss
sets at the end of every round, together with the ephemeral hit markers. -/
theorem misses_round_scoped (st : GameState) (a : PlayerId) (uid : String)
    (t : Coord) (o1 o2 : List MoveOrder) (i : PlayerId) :
    (getP (resolveShot st a uid t).2 i).misses = (getP st i).misses ∧
    (getP (resolveMovementPhase st o1 o2) i).misses = ∅ := by
  refine ⟨resolveShot_misses st a uid t i, ?_⟩
  fin_cases i <;>
    simp [resolveMovementPhase, resetFiringRound, clearEphemeral, getP]

/-! C7: firing turn order. -/

theorem mem_allShips {st : GameState} {p : PlayerId} {s : ShipInstance}
    (hs : s ∈ (getP st p).ships) : s ∈ allShips st := by
  unfold allShips
  rw [List.mem_append]
  fin_cases p
  · exact Or.inl (by simpa [getP] using hs)
  · exact Or.inr (by simpa [getP] using hs)

theorem uid_inj {st : GameState} (hU : UidsNodup st) {p q : PlayerId}
    {s t : ShipInstance} (hs : s ∈ (getP st p).ships) (ht : t ∈ (getP st q).ships)
    (h : s.uid = t.uid) : s = t :=
  List.inj_on_of_nodup_map hU (mem_allShips hs) (mem_allShips ht) h

theorem bool_false_not_true {b : Bool} (h : b = false) : ¬ b = true := by
  simp [h]

theorem hasUnfiredShips_iff {st : GameState} (hU : UidsNodup st) (p : PlayerId) :
    hasUnfiredShips st p = true ↔ HasUnfiredLive st p := by
  unfold hasUnfiredShips HasUnfiredLive
  rw [List.any_eq_true]
  constructor
  · rintro ⟨s, hs, hfire⟩
    unfold canShipFire at hfire
    cases hf : (getP st p).ships.find? (fun x => x.uid == s.uid) with
    | none => rw [hf] at hfire; cases hfire
    | some t =>
      rw [hf] at hfire
      simp only at hfire
      have ht := List.mem_of_find?_eq_some hf
      have htu : t.uid = s.uid := by simpa using List.find?_some hf
      cases hsk : t.sunk with
      | true => rw [hsk] at hfire; simp at hfire
      | false =>
        cases hpl : t.placed with
        | false => rw [hsk, hpl] at hfire; simp at hfire
        | true =>
          rw [hsk, hpl] at hfire
          simp only [Bool.or_self, Bool.not_true, if_false, Bool.not_eq_true,
            Bool.false_or] at hfire
          refine ⟨t, ht, hpl, hsk, ?_⟩
          rw [htu]
          simpa using hfire
  · rintro ⟨s, hs, hsp, hss, hsf⟩
    refine ⟨s, hs, ?_⟩
    unfold canShipFire
    cases hf : (getP st p).ships.find? (fun x => x.uid == s.uid) with
    | none =>
      exfalso
      have := List.find?_eq_none.mp hf s hs
      simp at this
    | some t =>
      have ht := List.mem_of_find?_eq_some hf
      have htu : t.uid = s.uid := by simpa using List.find?_some hf
      have hts : t = s := uid_inj hU ht hs htu
      subst hts
      simp only [hss, hsp]
      simpa using hsf

/-- C7: the next firing player is the opponent whenever the opponent still
has an unfired live placed ship, otherwise the current player if they still
have one, and the firing phase ends (result is none) exactly when neither
player has an unfired live placed ship left. -/
theorem nextFiringPlayer_spec (st : GameState) (cur : PlayerId) (hU : UidsNodup st) :
    (HasUnfiredLive st (otherPlayer cur) →
       nextFiringPlayer st cur = some (otherPlayer cur)) ∧
    (¬ HasUnfiredLive st (otherPlayer cur) → HasUnfiredLive st cur →
       nextFiringPlayer st cur = some cur) ∧
    (nextFiringPlayer st cur = none ↔
       ¬ HasUnfiredLive st (otherPlayer cur) ∧ ¬ HasUnfiredLive st cur) := by
  have ho := hasUnfiredShips_iff hU (otherPlayer cur)
  have hc := hasUnfiredShips_iff hU cur
  unfold nextFiringPlayer
  cases hbo : hasUnfiredShips st (otherPlayer cur) with
  | true =>
    simp only [if_true]
    refine ⟨fun _ => trivial, fun h1 _ => absurd (ho.mp hbo) h1, ?_, ?_⟩
    · intro hn
      cases hn
    · rintro ⟨h1, _⟩
      exact absurd (ho.mp hbo) h1
  | false =>
    have hnoL : ¬ HasUnfiredLive st (otherPlayer cur) := fun h =>
      bool_false_not_true hbo (ho.mpr h)
    cases hbc : hasUnfiredShips st cur with
    | true =>
      simp only [Bool.false_eq_true, if_false, if_true]
      refine ⟨fun h => absurd h hnoL, fun _ _ => trivial, ?_, ?_⟩
      · intro hn
        cases hn
      · rintro ⟨_, h2⟩
        exact absurd (hc.mp hbc) h2
    | false =>
      have hncL : ¬ HasUnfiredLive st cur := fun h =>
        bool_false_not_true hbc (hc.mpr h)
      simp only [Bool.false_eq_true, if_false]
      exact ⟨fun h => absurd h hnoL, fun _ h2 => absurd h2 hncL,
        fun _ => ⟨hnoL, hncL⟩, fun _ => trivial⟩

/-- Witness for C7 at a concrete state: player 0 still has unfired live
ships, so after player 1 fires the turn goes to player 0. -/
theorem nextFiringPlayer_spec_witness :
    UidsNodup stT ∧ HasUnfiredLive stT 0 ∧ nextFiringPlayer stT 1 = some 0 :=
  ⟨by unfold UidsNodup allShips; decide,
   by unfold HasUnfiredLive; decide,
   (nextFiringPlayer_spec stT 1 (by unfold UidsNodup allShips; decide)).1
     (by unfold HasUnfiredLive; decide)⟩

/-! C6: shot rejection conditions and atomicity. -/

theorem shotLog_setP (st : GameState) (i : PlayerId) (p : PlayerState) :
    (setP st i p).shotLog = st.shotLog := by
  unfold setP
  split <;> rfl

theorem getFired_setP (st : GameState) (i : PlayerId) (p : PlayerState) (j : PlayerId) :
    getFired (setP st i p) j = getFired st j := by
  unfold setP getFired
  split <;> split <;> rfl

theorem resolveShot_fst_none_of_fired {st : GameState} {a : PlayerId} {uid : String}
    (t : Coord) (hfired : uid ∈ getFired st a) :
    (resolveShot st a uid t).1 = none := by
  cases hf : (getP st a).ships.find? (fun s => s.uid == uid && !s.sunk && s.placed) with
  | none => simp only [resolveShot, hf]
  | some ship =>
    simp only [resolveShot, hf]
    rw [if_pos]
    · simp [hfired]

/-- C6: a salvo request returns no result exactly when the firing ship is
unknown, unplaced or sunk, the target is out of bounds, or the ship has
already fired this round; a rejected call leaves the state unchanged, and a
successful call appends its result to the shot log and adds the ship to the
attacker's fired set, so the same ship cannot fire again in the round. -/
theorem resolveShot_rejection_spec (st : GameState) (a : PlayerId) (uid : String) (t : Coord) :
    ((resolveShot st a uid t).1 = none ↔
      ((¬ ∃ s ∈ (getP st a).ships, s.uid = uid ∧ s.placed = true ∧ s.sunk = false) ∨
       inBounds t = false ∨ uid ∈ getFired st a)) ∧
    ((resolveShot st a uid t).1 = none → (resolveShot st a uid t).2 = st) ∧
    (∀ r, (resolveShot st a uid t).1 = some r →
      (resolveShot st a uid t).2.shotLog = st.shotLog ++ [r] ∧
      getFired (resolveShot st a uid t).2 a = insert uid (getFired st a) ∧
      ∀ t2, (resolveShot (resolveShot st a uid t).2 a uid t2).1 = none) := by
  cases hf : (getP st a).ships.find? (fun s => s.uid == uid && !s.sunk && s.placed) with
  | none =>
    have hmain : resolveShot st a uid t = (none, st) := by
      simp only [resolveShot, hf]
    rw [hmain]
    refine ⟨iff_of_true rfl (Or.inl ?_), fun _ => rfl, fun r hr => by simp at hr⟩
    rintro ⟨s, hs, h1, h2, h3⟩
    have := List.find?_eq_none.mp hf s hs
    simp [h1, h2, h3] at this
  | some ship =>
    by_cases hc : (!inBounds t || decide (uid ∈ getFired st a)) = true
    · have hmain : resolveShot st a uid t = (none, st) := by
        simp only [resolveShot, hf]
        rw [if_pos hc]
      rw [hmain]
      refine ⟨iff_of_true rfl (Or.inr ?_), fun _ => rfl, fun r hr => by simp at hr⟩
      have hc2 : inBounds t = false ∨ uid ∈ getFired st a := by simpa using hc
      exact hc2
    · have hcf := Bool.eq_false_iff.mpr hc
      obtain ⟨hib, hnf⟩ : inBounds t = true ∧ uid ∉ getFired st a := by
        simpa using hcf
      have hpred := List.find?_some hf
      simp only [Bool.and_eq_true, beq_iff_eq, Bool.not_eq_true'] at hpred
      have hex : ∃ s ∈ (getP st a).ships, s.uid = uid ∧ s.placed = true ∧ s.sunk = false :=
        ⟨ship, List.mem_of_find?_eq_some hf, hpred.1.1, hpred.2, hpred.1.2⟩
      have hrhsF : ¬ (((¬ ∃ s ∈ (getP st a).ships, s.uid = uid ∧ s.placed = true ∧ s.sunk = false) ∨
          inBounds t = false ∨ uid ∈ getFired st a)) := by
        rintro (h | h | h)
        · exact h hex
        · rw [hib] at h; cases h
        · exact hnf h
      cases hs : shipAt (getP st (otherPlayer a)) t with
      | none =>
        have hmain : resolveShot st a uid t =
            (some ⟨a, otherPlayer a, uid, t, false, shipDamage ship, none, none⟩,
             logShot st a uid ⟨a, otherPlayer a, uid, t, false, shipDamage ship, none, none⟩) := by
          simp only [resolveShot, hf, hs]
          rw [if_neg hc]
        rw [hmain]
        refine ⟨iff_of_false (by simp) hrhsF, fun hx => absurd hx (by simp), fun r hr => ?_⟩
        have hr2 : r = ⟨a, otherPlayer a, uid, t, false, shipDamage ship, none, none⟩ :=
          (Option.some.inj hr).symm
        subst hr2
        refine ⟨shotLog_logShot _ _ _ _, getFired_logShot_self _ _ _ _, fun t2 => ?_⟩
        apply resolveShot_fst_none_of_fired
        rw [getFired_logShot_self]
        exact Finset.mem_insert_self uid _
      | some h =>
        have hmain : ∃ st1 : GameState,
            resolveShot st a uid t =
              (some ⟨a, otherPlayer a, uid, t, true, shipDamage ship, some h.uid,
                 if (h.hp - shipDamage ship == 0) then some h.uid else none⟩,
               logShot st1 a uid ⟨a, otherPlayer a, uid, t, true, shipDamage ship, some h.uid,
                 if (h.hp - shipDamage ship == 0) then some h.uid else none⟩) ∧
            st1.shotLog = st.shotLog ∧ getFired st1 a = getFired st a ∧
            (getP st1 a).ships = (getP st a).ships := by
          refine ⟨setP (setP st (otherPlayer a)
              (applyDamage (getP st (otherPlayer a)) t (shipDamage ship))) a
              (creditKill (getP st a) h ((h.hp - shipDamage ship) == 0)), ?_, ?_, ?_, ?_⟩
          · simp only [resolveShot, hf, hs]
            rw [if_neg hc]
          · rw [shotLog_setP, shotLog_setP]
          · rw [getFired_setP, getFired_setP]
          · rw [getP_setP]
            split
            · unfold creditKill
              split <;> rfl
            · next hne => exact absurd rfl hne
        rcases hmain with ⟨st1, heq, hlog1, hfired1, hships1⟩
        rw [heq]
        refine ⟨iff_of_false (by simp) hrhsF, fun hx => absurd hx (by simp), fun r hr => ?_⟩
        have hr2 : r = ⟨a, otherPlayer a, uid, t, true, shipDamage ship, some h.uid,
            if (h.hp - shipDamage ship == 0) then some h.uid else none⟩ :=
          (Option.some.inj hr).symm
        subst hr2
        refine ⟨?_, ?_, fun t2 => ?_⟩
        · rw [shotLog_logShot, hlog1]
        · rw [getFired_logShot_self, hfired1]
        · apply resolveShot_fst_none_of_fired
          rw [getFired_logShot_self]
          exact Finset.mem_insert_self uid _

/-- Witness for C6 at a concrete state: the cruiser's shot is accepted, is
logged, and the cruiser cannot fire again in the same round. -/
theorem resolveShot_rejection_spec_witness :
    ∃ r, (resolveShot stF 0 "0-cruiser" ⟨2, 2⟩).1 = some r ∧
      (resolveShot stF 0 "0-cruiser" ⟨2, 2⟩).2.shotLog = stF.shotLog ++ [r] ∧
      (resolveShot (resolveShot stF 0 "0-cruiser" ⟨2, 2⟩).2 0 "0-cruiser" ⟨2, 2⟩).1 = none := by
  have hsp := (resolveShot_rejection_spec stF 0 "0-cruiser" ⟨2, 2⟩).2.2
  cases hr : (resolveShot stF 0 "0-cruiser" ⟨2, 2⟩).1 with
  | none =>
    exfalso
    have := ((resolveShot_rejection_spec stF 0 "0-cruiser" ⟨2, 2⟩).1).mp hr
    revert this
    decide
  | some r =>
    have hx := hsp r hr
    exact ⟨r, rfl, hx.1, hx.2.2 ⟨2, 2⟩⟩

/-! C10: skip orders. -/

theorem lookupProp_cons (k : String) (v : ShipInstance)
    (l : List (String × ShipInstance)) (u : String) :
    lookupProp ((k, v) :: l) u = if k = u then some v else lookupProp l u := by
  unfold lookupProp
  by_cases h : k = u
  · subst h
    rw [List.find?_cons_of_pos _ (by simp)]
    simp
  · rw [List.find?_cons_of_neg _ (by simpa using h)]
    simp [h]

theorem find?_ext {l : List α} {p q : α → Bool} (h : ∀ x, p x = q x) :
    l.find? p = l.find? q := by
  induction l with
  | nil => rfl
  | cons x xs ih =>
    by_cases hx : p x = true
    · rw [List.find?_cons_of_pos _ hx, List.find?_cons_of_pos _ (h x ▸ hx)]
    · rw [List.find?_cons_of_neg _ hx, List.find?_cons_of_neg _ (by rw [← h x]; exact hx), ih]

theorem commitShip_uid (rej : List String) (props : List (String × ShipInstance))
    (s : ShipInstance) : (commitShip rej props s).uid = s.uid := by
  unfold commitShip
  split
  · rfl
  · split
    · rfl
    · split <;> rfl

theorem find?_uid_of_nodup {st : GameState} (hU : UidsNodup st) {q : PlayerId}
    {ship : ShipInstance} (hmem : ship ∈ (getP st q).ships) :
    (getP st q).ships.find? (fun s => s.uid == ship.uid) = some ship := by
  cases hf : (getP st q).ships.find? (fun s => s.uid == ship.uid) with
  | none =>
    exfalso
    have := List.find?_eq_none.mp hf ship hmem
    simp at this
  | some t =>
    have ht := List.mem_of_find?_eq_some hf
    have htu : t.uid = ship.uid := by simpa using List.find?_some hf
    rw [uid_inj hU ht hmem htu]

theorem lookupProp_phase1_skip_aux {st : GameState} (hU : UidsNodup st) {U : String}
    {ship : ShipInstance} (hmem : ship ∈ (getP st (prefixPid U)).ships)
    (huid : ship.uid = U) (hpl : ship.placed = true) (hsk : ship.sunk = false)
    (orders : List MoveOrder) :
    ∀ acc : P1Acc, (∀ o2 ∈ orders, o2.shipUid = U → o2.skip = true) →
      (lookupProp acc.proposals U = none ∨ lookupProp acc.proposals U = some ship) →
      (lookupProp (orders.foldl (processOrder st) acc).proposals U = none ∨
       lookupProp (orders.foldl (processOrder st) acc).proposals U = some ship) := by
  induction orders with
  | nil =>
    intro acc _ hacc
    simpa using hacc
  | cons o os ih =>
    intro acc hall hacc
    rw [List.foldl_cons]
    refine ih _ (fun o2 ho2 h2 => hall o2 (List.mem_cons_of_mem _ ho2) h2) ?_
    unfold processOrder
    cases hf : (getP st (prefixPid o.shipUid)).ships.find? (fun s => s.uid == o.shipUid) with
    | none =>
      simp only [hf]
      exact hacc
    | some t =>
      have htu : t.uid = o.shipUid := by simpa using List.find?_some hf
      simp only [hf]
      by_cases hU2 : o.shipUid = U
      · have hsk2 : o.skip = true := hall o (List.mem_cons_self o os) hU2
        have hts : t = ship :=
          uid_inj hU (List.mem_of_find?_eq_some hf)
            (show ship ∈ (getP st (prefixPid o.shipUid)).ships by rw [hU2]; exact hmem)
            (by rw [htu, hU2, huid])
        subst hts
        rw [hpl, hsk, hsk2]
        simp only [Bool.not_true, Bool.or_false, Bool.false_eq_true, if_false, if_true]
        right
        rw [lookupProp_cons, if_pos huid]
      · have hne : t.uid ≠ U := by rw [htu]; exact hU2
        split
        · exact hacc
        · split
          · rcases hacc with h | h
            · left; rw [lookupProp_cons, if_neg hne]; exact h
            · right; rw [lookupProp_cons, if_neg hne]; exact h
          · split
            · rcases hacc with h | h
              · left; rw [lookupProp_cons, if_neg hne]; exact h
              · right; rw [lookupProp_cons, if_neg hne]; exact h
            · exact hacc

theorem lookupProp_phase1_skip {st : GameState} (hU : UidsNodup st)
    {orders : List MoveOrder} {U : String}
    (hall : ∀ o2 ∈ orders, o2.shipUid = U → o2.skip = true)
    {ship : ShipInstance} (hmem : ship ∈ (getP st (prefixPid U)).ships)
    (huid : ship.uid = U) (hpl : ship.placed = true) (hsk : ship.sunk = false) :
    lookupProp (phase1 st orders).proposals U = none ∨
      lookupProp (phase1 st orders).proposals U = some ship :=
  lookupProp_phase1_skip_aux hU hmem huid hpl hsk orders ⟨[], [], []⟩ hall (Or.inl rfl)

theorem getP_resolveMovement (st : GameState) (o1 o2 : List MoveOrder) (q : PlayerId) :
    (getP (resolveMovement st o1 o2).2 q).ships =
      (getP st q).ships.map
        (commitShip (phase2 st (phase1 st (o1 ++ o2)).proposals
            (phase1 st (o1 ++ o2)).rejected).rejected
          (phase1 st (o1 ++ o2)).proposals) := by
  unfold resolveMovement getP
  split <;> rfl

theorem commitShip_of_lookup_self {rej : List String} {props : List (String × ShipInstance)}
    {s : ShipInstance}
    (h : lookupProp props s.uid = none ∨ lookupProp props s.uid = some s) :
    commitShip rej props s = s := by
  unfold commitShip
  split
  · rfl
  · rcases h with h | h
    · rw [h]
    · rw [h]
      simp

/-- C10: a skip order on an existing, placed, unsunk ship is always legal
(canMoveShip returns true no matter what destination and orientation the
order carries), and when the ship's submitted order is the skip order,
resolveMovement leaves the ship entirely unchanged, its anchor and
orientation included, even though the order's destination and orientation
are arbitrary. -/
theorem skip_order_spec (st : GameState) (order : MoveOrder) (o1 o2 : List MoveOrder)
    (ship : ShipInstance) (hU : UidsNodup st)
    (hmem : ship ∈ (getP st (prefixPid order.shipUid)).ships)
    (huid : ship.uid = order.shipUid) (hpl : ship.placed = true) (hsk : ship.sunk = false)
    (hskip : order.skip = true)
    (hall : ∀ o2x ∈ o1 ++ o2, o2x.shipUid = order.shipUid → o2x.skip = true) :
    canMoveShip st (prefixPid order.shipUid) order = true ∧
    ((getP (resolveMovement st o1 o2).2 (prefixPid order.shipUid)).ships.find?
        (fun s => s.uid == order.shipUid)) = some ship := by
  constructor
  · unfold canMoveShip
    cases hf : (getP st (prefixPid order.shipUid)).ships.find?
        (fun s => s.uid == order.shipUid && s.placed && !s.sunk) with
    | none =>
      exfalso
      have := List.find?_eq_none.mp hf ship hmem
      simp [huid, hpl, hsk] at this
    | some t =>
      simp only [hskip, if_true]
  · rw [getP_resolveMovement]
    rw [List.find?_map]
    have hpred : ∀ s : ShipInstance,
        ((fun x => x.uid == order.shipUid) ∘
          commitShip (phase2 st (phase1 st (o1 ++ o2)).proposals
              (phase1 st (o1 ++ o2)).rejected).rejected (phase1 st (o1 ++ o2)).proposals) s =
        (fun x => x.uid == order.shipUid) s := by
      intro s
      simp only [Function.comp_apply, commitShip_uid]
    rw [find?_ext hpred]
    have hmem2 : ship ∈ (getP st (prefixPid order.shipUid)).ships := hmem
    have hfind : (getP st (prefixPid order.shipUid)).ships.find?
        (fun s => s.uid == order.shipUid) = some ship := by
      have := find?_uid_of_nodup hU hmem2
      rw [huid] at this
      exact this
    rw [hfind]
    have hlk := lookupProp_phase1_skip hU
      (show ∀ o2x ∈ o1 ++ o2, o2x.shipUid = order.shipUid → o2x.skip = true from
        fun o2x ho2x h2 => hall o2x ho2x h2) (huid ▸ hmem) huid hpl hsk
    have hcommit : commitShip (phase2 st (phase1 st (o1 ++ o2)).proposals
        (phase1 st (o1 ++ o2)).rejected).rejected (phase1 st (o1 ++ o2)).proposals ship = ship := by
      apply commitShip_of_lookup_self
      rw [huid]
      exact hlk
    rw [Option.map_some']
    rw [hcommit]

/-- Witness for C10: a skip order on the placed scout carrying a far-away
destination and a rotated orientation is legal and moves nothing. -/
theorem skip_order_spec_witness :
    canMoveShip stM (prefixPid "0-scout") ⟨"0-scout", ⟨9, 9⟩, Orientation.V, true⟩ = true ∧
    ((getP (resolveMovement stM [⟨"0-scout", ⟨9, 9⟩, Orientation.V, true⟩] []).2
        (prefixPid "0-scout")).ships.find? (fun s => s.uid == "0-scout")) =
      some (mkShip "0-scout" ShipTypeId.scout 0 ⟨0, 0⟩ Orientation.H true) :=
  skip_order_spec stM ⟨"0-scout", ⟨9, 9⟩, Orientation.V, true⟩
    [⟨"0-scout", ⟨9, 9⟩, Orientation.V, true⟩] []
    (mkShip "0-scout" ShipTypeId.scout 0 ⟨0, 0⟩ Orientation.H true)
    (by unfold UidsNodup allShips; decide) (by decide) (by decide) (by decide) (by decide)
    (by decide) (by decide)

/-! C5: movement legality characterization. -/

theorem natAbs_sub_sign {d : Int} (hd : d ≠ 0) : (d - d.sign).natAbs = d.natAbs - 1 := by
  rcases lt_trichotomy d 0 with h | h | h
  · rw [Int.sign_eq_neg_one_of_neg h]
    omega
  · exact absurd h hd
  · rw [Int.sign_eq_one_of_pos h]
    omega

theorem sign_sub_sign {d : Int} (hd : 2 ≤ d.natAbs) : (d - d.sign).sign = d.sign := by
  rcases lt_trichotomy d 0 with h | h | h
  · rw [Int.sign_eq_neg_one_of_neg h, Int.sign_eq_neg_one_of_neg (by omega)]
  · omega
  · rw [Int.sign_eq_one_of_pos h, Int.sign_eq_one_of_pos (by omega)]

theorem walkOk_iff (ship : ShipInstance) (occ : Coord → Bool) (step : Coord → Coord)
    (mk : Int → Coord) (tgt : Int)
    (hstep : ∀ z, step (mk z) = mk (z + (tgt - z).sign)) :
    ∀ n z, (tgt - z).natAbs = n →
      (walkOk ship occ step n (mk z) = true ↔
       ∀ j : Nat, 1 ≤ j → j ≤ n →
         footOk { ship with anchor := mk (z + (j : Int) * (tgt - z).sign) } occ = true) := by
  intro n
  induction n with
  | zero =>
    intro z _
    constructor
    · intro _ j h1 h2
      omega
    · intro _
      rfl
  | succ n ih =>
    intro z hz
    have hd : tgt - z ≠ 0 := by
      intro h0
      rw [h0] at hz
      simp at hz
    have hz2 : (tgt - (z + (tgt - z).sign)).natAbs = n := by
      have harr : tgt - (z + (tgt - z).sign) = (tgt - z) - (tgt - z).sign := by ring
      rw [harr, natAbs_sub_sign hd, hz]
      omega
    have hunf : walkOk ship occ step (n + 1) (mk z) =
        (footOk { ship with anchor := step (mk z) } occ &&
         walkOk ship occ step n (step (mk z))) := rfl
    rw [hunf, hstep z, Bool.and_eq_true, ih (z + (tgt - z).sign) hz2]
    have hsign : 1 ≤ n →
        (tgt - (z + (tgt - z).sign)).sign = (tgt - z).sign := by
      intro hn
      have harr : tgt - (z + (tgt - z).sign) = (tgt - z) - (tgt - z).sign := by ring
      rw [harr]
      exact sign_sub_sign (by omega)
    constructor
    · rintro ⟨hfoot, hrest⟩ j h1 h2
      by_cases hj : j = 1
      · subst hj
        simpa using hfoot
      · have h1b : 1 ≤ j - 1 := by omega
        have h2b : j - 1 ≤ n := by omega
        have hstepj := hrest (j - 1) h1b h2b
        rw [hsign (by omega)] at hstepj
        have harg : z + (tgt - z).sign + ((j - 1 : Nat) : Int) * (tgt - z).sign
            = z + (j : Int) * (tgt - z).sign := by
          have hc : ((j - 1 : Nat) : Int) = (j : Int) - 1 := by omega
          rw [hc]
          ring
        rw [harg] at hstepj
        exact hstepj
    · intro hall2
      refine ⟨?_, ?_⟩
      · have := hall2 1 (le_refl 1) (by omega)
        simpa using this
      · intro j h1 h2
        have := hall2 (j + 1) (by omega) (by omega)
        rw [hsign (by omega)]
        have harg : z + (tgt - z).sign + ((j : Nat) : Int) * (tgt - z).sign
            = z + ((j + 1 : Nat) : Int) * (tgt - z).sign := by
          push_cast
          ring
        rw [harg]
        exact this

theorem occHas_iff (players : List PlayerState) (ignore : String) (c : Coord) :
    occHas players ignore c = true ↔
      ∃ p ∈ players, ∃ s ∈ p.ships,
        s.placed = true ∧ s.sunk = false ∧ s.uid ≠ ignore ∧ c ∈ shipCells s := by
  unfold occHas
  rw [List.any_eq_true]
  constructor
  · rintro ⟨p, hp, hany⟩
    rw [List.any_eq_true] at hany
    rcases hany with ⟨sh, hsh, hcond⟩
    simp only [Bool.and_eq_true, Bool.not_eq_true', bne_iff_ne, ne_eq] at hcond
    refine ⟨p, hp, sh, hsh, hcond.1.1.1, hcond.1.1.2, hcond.1.2, ?_⟩
    have := hcond.2
    simpa [List.contains_iff_exists_mem_beq] using this
  · rintro ⟨p, hp, sh, hsh, h1, h2, h3, h4⟩
    refine ⟨p, hp, ?_⟩
    rw [List.any_eq_true]
    refine ⟨sh, hsh, ?_⟩
    simp only [Bool.and_eq_true, Bool.not_eq_true', bne_iff_ne, ne_eq]
    exact ⟨⟨⟨h1, h2⟩, h3⟩, by simpa [List.contains_iff_exists_mem_beq] using h4⟩

theorem footOk_iff (st : GameState) (selfUid : String) (s : ShipInstance) :
    footOk s (occHas (playersList st) selfUid) = true ↔ footprintClear st selfUid s := by
  unfold footOk footprintClear
  rw [List.all_eq_true]
  refine forall_congr' fun c => forall_congr' fun _ => ?_
  rw [Bool.and_eq_true, Bool.not_eq_true']
  have hocc := occHas_iff (playersList st) selfUid c
  constructor
  · rintro ⟨h1, h2⟩
    refine ⟨h1, fun hb => ?_⟩
    have hx : occHas (playersList st) selfUid c = true := hocc.mpr hb
    rw [h2] at hx
    cases hx
  · rintro ⟨h1, h2⟩
    refine ⟨h1, ?_⟩
    rcases Bool.eq_false_or_eq_true (occHas (playersList st) selfUid c) with hb | hb
    · exact absurd (hocc.mp hb) h2
    · exact hb

/-- C5: for a non-skip order on the placed, unsunk ship the engine's lookup
finds, canMoveShip returns true exactly when (a) the Manhattan distance to
the destination is within the ship's move range, (b) every intermediate
footprint of the x-then-y walk, taken with the current orientation, is in
bounds and avoids every other placed, unsunk ship of either player, and
(c) the final footprint at the destination with the requested orientation
is also in bounds and unobstructed. -/
theorem canMoveShip_iff_spec (st : GameState) (pid : PlayerId) (order : MoveOrder)
    (ship : ShipInstance)
    (hf : (getP st pid).ships.find?
        (fun s => s.uid == order.shipUid && s.placed && !s.sunk) = some ship)
    (hns : order.skip = false) :
    canMoveShip st pid order = true ↔ canMoveShipSpec st order ship := by
  unfold canMoveShip canMoveShipSpec
  simp only [hf, hns, Bool.false_eq_true, if_false]
  by_cases hman : shipMoveRange ship < manhattan ship.anchor order.dest
  · rw [if_pos hman]
    exact iff_of_false (by simp) (fun hsp => absurd hsp.1 (by omega))
  · rw [if_neg hman]
    rw [Bool.and_eq_true, Bool.and_eq_true]
    have hX : walkOk ship (occHas (playersList st) ship.uid)
        (fun cur => ⟨cur.x + (order.dest.x - cur.x).sign, cur.y⟩)
        ((order.dest.x - ship.anchor.x).natAbs) ship.anchor = true ↔
        ∀ j : Nat, 1 ≤ j → j ≤ (order.dest.x - ship.anchor.x).natAbs →
          footOk { ship with anchor :=
            ⟨ship.anchor.x + (j : Int) * (order.dest.x - ship.anchor.x).sign, ship.anchor.y⟩ }
            (occHas (playersList st) ship.uid) = true :=
      walkOk_iff ship (occHas (playersList st) ship.uid)
        (fun cur => ⟨cur.x + (order.dest.x - cur.x).sign, cur.y⟩)
        (fun z => ⟨z, ship.anchor.y⟩) order.dest.x (fun z => rfl)
        ((order.dest.x - ship.anchor.x).natAbs) ship.anchor.x rfl
    have hY : walkOk ship (occHas (playersList st) ship.uid)
        (fun cur => ⟨cur.x, cur.y + (order.dest.y - cur.y).sign⟩)
        ((order.dest.y - ship.anchor.y).natAbs) ⟨order.dest.x, ship.anchor.y⟩ = true ↔
        ∀ j : Nat, 1 ≤ j → j ≤ (order.dest.y - ship.anchor.y).natAbs →
          footOk { ship with anchor :=
            ⟨order.dest.x, ship.anchor.y + (j : Int) * (order.dest.y - ship.anchor.y).sign⟩ }
            (occHas (playersList st) ship.uid) = true :=
      walkOk_iff ship (occHas (playersList st) ship.uid)
        (fun cur => ⟨cur.x, cur.y + (order.dest.y - cur.y).sign⟩)
        (fun z => ⟨order.dest.x, z⟩) order.dest.y (fun z => rfl)
        ((order.dest.y - ship.anchor.y).natAbs) ship.anchor.y rfl
    rw [hX, hY]
    constructor
    · rintro ⟨⟨hx, hy⟩, hfin⟩
      refine ⟨by omega, fun j h1 h2 => (footOk_iff st ship.uid _).mp (hx j h1 h2),
        fun j h1 h2 => (footOk_iff st ship.uid _).mp (hy j h1 h2),
        (footOk_iff st ship.uid _).mp hfin⟩
    · rintro ⟨_, hx, hy, hfin⟩
      exact ⟨⟨fun j h1 h2 => (footOk_iff st ship.uid _).mpr (hx j h1 h2),
        fun j h1 h2 => (footOk_iff st ship.uid _).mpr (hy j h1 h2)⟩,
        (footOk_iff st ship.uid _).mpr hfin⟩

/-- Witness for C5: the legal diagonal move-with-rotation of the scout in
the fixture state satisfies the declarative characterization. -/
theorem canMoveShip_iff_spec_witness :
    canMoveShipSpec stT ⟨"0-scout", ⟨2, 2⟩, Orientation.V, false⟩
      (mkShip "0-scout" ShipTypeId.scout 0 ⟨1, 1⟩ Orientation.H true) :=
  (canMoveShip_iff_spec stT 0 ⟨"0-scout", ⟨2, 2⟩, Orientation.V, false⟩
      (mkShip "0-scout" ShipTypeId.scout 0 ⟨1, 1⟩ Orientation.H true)
      (by decide) rfl).mp (by decide)

/-! C1: per-segment damage. -/

theorem replaceFirst_eq_set {p : α → Bool} {f : α → α} {l : List α} {a : α}
    (hf : l.find? p = some a) :
    ∃ i, ∃ h : i < l.length, l.get ⟨i, h⟩ = a ∧ replaceFirst p f l = l.set i (f a) := by
  induction l with
  | nil => cases hf
  | cons x xs ih =>
    by_cases hx : p x = true
    · rw [List.find?_cons_of_pos _ hx] at hf
      have hax : x = a := by injection hf
      subst hax
      exact ⟨0, by simp, rfl, by unfold replaceFirst; rw [if_pos hx]; rfl⟩
    · rw [List.find?_cons_of_neg _ hx] at hf
      rcases ih hf with ⟨i, h, hget, heq⟩
      refine ⟨i + 1, by simpa using h, hget, ?_⟩
      unfold replaceFirst
      rw [if_neg hx, heq]
      rfl

theorem segShipCells_length (s : SegShip) :
    (segShipCells s).length = (SHIP_BY_ID s.typeId).size := by
  simp only [segShipCells, List.length_map, List.length_range]

/-- C1 (settled against the salvo module modelled from the spec, as pinned
by the current type declarations and unit tests): a shot resolved against
a cell of a placed, unsunk enemy ship hits, marks exactly one segment of
that ship — the index of the struck cell inside its footprint — as
damaged, leaves already-damaged segments as they are (a re-strike is a
no-op that does not advance the kill), and the ship becomes sunk exactly
when the number of distinct damaged segments reaches its template size. -/
theorem segment_damage_spec (defenders : List SegShip) (t : Coord) (ship : SegShip)
    (hf : defenders.find? (fun s => s.placed && !s.sunk && (segShipCells s).contains t)
      = some ship)
    (hcard : ship.hits.card < (SHIP_BY_ID ship.typeId).size) :
    (resolveShotCell defenders t).1.hit = true ∧
    struckIndex ship t < (SHIP_BY_ID ship.typeId).size ∧
    (segShipCells ship).getD (struckIndex ship t) ⟨0, 0⟩ = t ∧
    (damagedShip ship t).hits = insert (struckIndex ship t) ship.hits ∧
    (∃ i, ∃ h : i < defenders.length, defenders.get ⟨i, h⟩ = ship ∧
      (resolveShotCell defenders t).2 = defenders.set i (damagedShip ship t)) ∧
    (struckIndex ship t ∉ ship.hits →
      (damagedShip ship t).hits.card = ship.hits.card + 1) ∧
    (struckIndex ship t ∈ ship.hits → damagedShip ship t = ship) ∧
    ((damagedShip ship t).sunk = true ↔
      (damagedShip ship t).hits.card = (SHIP_BY_ID ship.typeId).size) := by
  have hpred := List.find?_some hf
  simp only [Bool.and_eq_true, Bool.not_eq_true'] at hpred
  obtain ⟨⟨hpl, hsk⟩, hcont⟩ := hpred
  have hmemt : t ∈ segShipCells ship := by
    simpa [List.contains_iff_exists_mem_beq] using hcont
  have hidx : struckIndex ship t < (segShipCells ship).length :=
    List.findIdx_lt_length_of_exists ⟨t, hmemt, by simp⟩
  have hidx2 : struckIndex ship t < (SHIP_BY_ID ship.typeId).size := by
    rw [← segShipCells_length ship]
    exact hidx
  refine ⟨?_, hidx2, ?_, rfl, ?_, ?_, ?_, ?_⟩
  · simp only [resolveShotCell, hf]
  · have := @List.findIdx_getElem _ (fun c => c == t) (segShipCells ship) hidx
    rw [List.getD_eq_getElem _ _ hidx]
    simpa [struckIndex] using this
  · rcases @replaceFirst_eq_set _ _ (fun s => damagedShip s t) _ _ hf with ⟨i, h, hget, heq⟩
    exact ⟨i, h, hget, by simp only [resolveShotCell, hf]; exact heq⟩
  · intro hnm
    simp only [damagedShip]
    rw [Finset.card_insert_of_not_mem hnm]
  · intro hm
    have hins : insert (struckIndex ship t) ship.hits = ship.hits :=
      Finset.insert_eq_self.mpr hm
    have hsunk : (ship.hits.card == (SHIP_BY_ID ship.typeId).size) = false := by
      rw [beq_eq_false_iff_ne]
      omega
    cases ship with
    | mk uid typeId owner anchor orientation hits placed sunk =>
      simp only [damagedShip, struckIndex] at hins hsunk ⊢
      rw [hins, hsunk]
      simp only at hsk
      rw [hsk]
  · simp only [damagedShip]
    constructor
    · intro h
      exact eq_of_beq h
    · intro h
      rw [h]
      simp

/-- Witness for C1: a fresh scout struck at its anchor cell takes exactly
one new segment of damage. -/
theorem segment_damage_spec_witness :
    (resolveShotCell [segScout] ⟨2, 2⟩).1.hit = true ∧
    (damagedShip segScout ⟨2, 2⟩).hits = insert (struckIndex segScout ⟨2, 2⟩) segScout.hits ∧
    (struckIndex segScout ⟨2, 2⟩ ∉ segScout.hits →
      (damagedShip segScout ⟨2, 2⟩).hits.card = segScout.hits.card + 1) := by
  have h := segment_damage_spec [segScout] ⟨2, 2⟩ segScout (by decide) (by decide)
  exact ⟨h.1, h.2.2.2.1, h.2.2.2.2.2.1⟩

/-! C2: salvo targeting. -/

theorem resolveShotCell_target (ships : List SegShip) (c : Coord) :
    (resolveShotCell ships c).1.target = c := by
  unfold resolveShotCell
  cases hf : ships.find? (fun s => s.placed && !s.sunk && (segShipCells s).contains c) <;>
    simp [hf]

theorem mem_replaceFirst {p : α → Bool} {f : α → α} {l : List α} {x : α}
    (hx : x ∈ replaceFirst p f l) : x ∈ l ∨ ∃ y ∈ l, p y = true ∧ x = f y := by
  induction l with
  | nil => cases hx
  | cons a as ih =>
    unfold replaceFirst at hx
    by_cases ha : p a = true
    · rw [if_pos ha] at hx
      rcases List.mem_cons.mp hx with rfl | hx2
      · exact Or.inr ⟨a, List.mem_cons_self a as, ha, rfl⟩
      · exact Or.inl (List.mem_cons_of_mem _ hx2)
    · rw [if_neg ha] at hx
      rcases List.mem_cons.mp hx with rfl | hx2
      · exact Or.inl (List.mem_cons_self _ _)
      · rcases ih hx2 with h | ⟨y, hy, hpy, hxy⟩
        · exact Or.inl (List.mem_cons_of_mem _ h)
        · exact Or.inr ⟨y, List.mem_cons_of_mem _ hy, hpy, hxy⟩

theorem damagedShip_cells (s : SegShip) (t : Coord) :
    segShipCells (damagedShip s t) = segShipCells s := by
  unfold damagedShip segShipCells
  rfl

theorem resolveShotCell_preserves_inbounds {ships : List SegShip} {c : Coord}
    (hinv : ∀ s ∈ ships, s.placed = true → s.sunk = false →
      ∀ c2 ∈ segShipCells s, inBounds c2 = true) :
    ∀ s ∈ (resolveShotCell ships c).2, s.placed = true → s.sunk = false →
      ∀ c2 ∈ segShipCells s, inBounds c2 = true := by
  intro s hs hpl hsk
  unfold resolveShotCell at hs
  cases hf : ships.find? (fun x => x.placed && !x.sunk && (segShipCells x).contains c) with
  | none =>
    rw [hf] at hs
    exact hinv s hs hpl hsk
  | some ship =>
    rw [hf] at hs
    simp only at hs
    rcases mem_replaceFirst hs with h | ⟨y, hy, hpy, hxy⟩
    · exact hinv s h hpl hsk
    · subst hxy
      simp only [Bool.and_eq_true, Bool.not_eq_true'] at hpy
      rw [damagedShip_cells]
      intro c2 hc2
      exact hinv y hy hpy.1.1 hpy.1.2 c2 hc2

theorem resolveShotCell_oob {ships : List SegShip} {c : Coord}
    (hinv : ∀ s ∈ ships, s.placed = true → s.sunk = false →
      ∀ c2 ∈ segShipCells s, inBounds c2 = true)
    (hoob : inBounds c = false) :
    (resolveShotCell ships c).1 = ⟨c, false, none, none⟩ := by
  cases hf : ships.find? (fun s => s.placed && !s.sunk && (segShipCells s).contains c) with
  | none =>
    unfold resolveShotCell
    rw [hf]
  | some ship =>
    exfalso
    have hpred := List.find?_some hf
    simp only [Bool.and_eq_true, Bool.not_eq_true'] at hpred
    have hmem : c ∈ segShipCells ship := by
      simpa [List.contains_iff_exists_mem_beq] using hpred.2
    have := hinv ship (List.mem_of_find?_eq_some hf) hpred.1.1 hpred.1.2 c hmem
    rw [hoob] at this
    cases this

theorem resolveCells_map_target (cells : List Coord) :
    ∀ ships : List SegShip, ((resolveCells ships cells).1.map (fun r => r.target)) = cells := by
  induction cells with
  | nil => intro ships; rfl
  | cons c cs ih =>
    intro ships
    unfold resolveCells
    simp only [List.map_cons]
    rw [resolveShotCell_target, ih]

theorem resolveCells_oob (cells : List Coord) :
    ∀ ships : List SegShip,
      (∀ s ∈ ships, s.placed = true → s.sunk = false →
        ∀ c2 ∈ segShipCells s, inBounds c2 = true) →
      ∀ r ∈ (resolveCells ships cells).1, inBounds r.target = false → r.hit = false := by
  induction cells with
  | nil =>
    intro ships _ r hr
    cases hr
  | cons c cs ih =>
    intro ships hinv r hr hro
    unfold resolveCells at hr
    rcases List.mem_cons.mp hr with rfl | hr2
    · rw [resolveShotCell_target] at hro
      rw [resolveShotCell_oob hinv hro]
    · exact ih (resolveShotCell ships c).2 (resolveShotCell_preserves_inbounds hinv) r hr2 hro

theorem computeSalvoTargets_length (t : Coord) (o : Orientation) (k : Nat) :
    (computeSalvoTargets t o k).length = k := by
  unfold computeSalvoTargets
  rw [List.length_map, List.length_range]

theorem computeSalvoTargets_getD (t : Coord) (o : Orientation) (k i : Nat) (h : i < k) :
    (computeSalvoTargets t o k).getD i ⟨0, 0⟩ =
      axisShift o t ((i : Int) - (((k - 1) / 2 : Nat) : Int)) := by
  have hlen : i < (computeSalvoTargets t o k).length := by
    rw [computeSalvoTargets_length]
    exact h
  rw [List.getD_eq_getElem _ _ hlen]
  unfold computeSalvoTargets axisShift
  cases o <;> simp [List.getElem_map, List.getElem_range]

/-- C2 (settled against the salvo module modelled from the spec): a salvo
with gun count k produces exactly k per-shell results, one per cell of the
contiguous k-cell run through the target cell along the chosen orientation
axis; the run is centered on the clicked cell with (k-1)/2 cells on the
lower side (never more than on the upper side — ties lean toward the lower
index); each cell is resolved in turn, and out-of-bounds cells are still
fired upon but can hit nothing. -/
theorem salvo_targets_spec (defenders : List SegShip) (t : Coord) (o : Orientation)
    (k : Nat) :
    (resolveSalvo defenders t o k).1.length = k ∧
    (resolveSalvo defenders t o k).1.map (fun r => r.target) = computeSalvoTargets t o k ∧
    (computeSalvoTargets t o k).length = k ∧
    (∀ i, i + 1 < k →
      (computeSalvoTargets t o k).getD (i + 1) ⟨0, 0⟩ =
        axisShift o ((computeSalvoTargets t o k).getD i ⟨0, 0⟩) 1) ∧
    (1 ≤ k → (computeSalvoTargets t o k).getD ((k - 1) / 2) ⟨0, 0⟩ = t) ∧
    (∀ i, i < k →
      (axisCoord o ((computeSalvoTargets t o k).getD i ⟨0, 0⟩) < axisCoord o t ↔
        i < (k - 1) / 2)) ∧
    (k - 1) / 2 ≤ (k - 1) - (k - 1) / 2 ∧
    ((∀ s ∈ defenders, s.placed = true → s.sunk = false →
        ∀ c ∈ segShipCells s, inBounds c = true) →
      ∀ r ∈ (resolveSalvo defenders t o k).1, inBounds r.target = false → r.hit = false) := by
  have hmap := resolveCells_map_target (computeSalvoTargets t o k) defenders
  refine ⟨?_, hmap, computeSalvoTargets_length t o k, ?_, ?_, ?_, by omega, ?_⟩
  · have hlen := congrArg List.length hmap
    rw [List.length_map] at hlen
    unfold resolveSalvo
    rw [hlen, computeSalvoTargets_length]
  · intro i hi
    rw [computeSalvoTargets_getD t o k (i + 1) hi,
      computeSalvoTargets_getD t o k i (by omega)]
    cases o <;> simp only [axisShift, Coord.mk.injEq, and_true, true_and] <;> omega
  · intro hk
    rw [computeSalvoTargets_getD t o k ((k - 1) / 2) (by omega)]
    cases o <;> cases t <;> simp only [axisShift, Coord.mk.injEq, and_true, true_and] <;> omega
  · intro i hi
    rw [computeSalvoTargets_getD t o k i hi]
    cases o <;> simp only [axisShift, axisCoord] <;> omega
  · exact resolveCells_oob (computeSalvoTargets t o k) defenders

/-- Witness for C2: a three-shell salvo clicked at the board edge fires on
an out-of-bounds cell without hitting anything. -/
theorem salvo_targets_spec_witness :
    (resolveSalvo [segScout] ⟨0, 2⟩ Orientation.H 3).1.length = 3 ∧
    (∀ r ∈ (resolveSalvo [segScout] ⟨0, 2⟩ Orientation.H 3).1,
      inBounds r.target = false → r.hit = false) :=
  ⟨(salvo_targets_spec [segScout] ⟨0, 2⟩ Orientation.H 3).1,
   (salvo_targets_spec [segScout] ⟨0, 2⟩ Orientation.H 3).2.2.2.2.2.2.2 (by decide)⟩

/-! C3 and C4: the spatial invariant and simultaneous movement. -/

theorem replaceFirst_length (p : α → Bool) (f : α → α) (l : List α) :
    (replaceFirst p f l).length = l.length := by
  induction l with
  | nil => rfl
  | cons x xs ih =>
    unfold replaceFirst
    by_cases hx : p x = true
    · rw [if_pos hx]
      rfl
    · rw [if_neg hx]
      simpa using ih

theorem replaceFirst_rel (p : α → Bool) (f : α → α) (l : List α) :
    List.Forall₂ (fun b a => b = a ∨ (p a = true ∧ b = f a)) (replaceFirst p f l) l := by
  induction l with
  | nil => exact List.Forall₂.nil
  | cons x xs ih =>
    unfold replaceFirst
    by_cases hx : p x = true
    · rw [if_pos hx]
      exact List.Forall₂.cons (Or.inr ⟨hx, rfl⟩) (List.forall₂_same.mpr fun a _ => Or.inl rfl)
    · rw [if_neg hx]
      exact List.Forall₂.cons (Or.inl rfl) ih

theorem replaceFirst_get (p : α → Bool) (f : α → α) (l : List α)
    (i : Nat) (h : i < l.length) (h2 : i < (replaceFirst p f l).length) :
    (replaceFirst p f l).get ⟨i, h2⟩ = l.get ⟨i, h⟩ ∨
      (p (l.get ⟨i, h⟩) = true ∧ (replaceFirst p f l).get ⟨i, h2⟩ = f (l.get ⟨i, h⟩)) :=
  (List.forall₂_iff_get.mp (replaceFirst_rel p f l)).2 i h2 h

theorem shipCells_congr {s t : ShipInstance} (h1 : s.typeId = t.typeId)
    (h2 : s.anchor = t.anchor) (h3 : s.orientation = t.orientation) :
    shipCells s = shipCells t := by
  unfold shipCells
  rw [h1, h2, h3]

theorem ShipsOk_of_pointwise {l l2 : List ShipInstance} (hlen : l2.length = l.length)
    (h : ∀ (i : Nat) (hi : i < l.length) (hi2 : i < l2.length),
      shipCells (l2.get ⟨i, hi2⟩) = shipCells (l.get ⟨i, hi⟩) ∧
      (l2.get ⟨i, hi2⟩).placed = (l.get ⟨i, hi⟩).placed ∧
      ((l2.get ⟨i, hi2⟩).sunk = false → (l.get ⟨i, hi⟩).sunk = false))
    (hok : ShipsOk l) : ShipsOk l2 := by
  intro i hpl hsk
  have hi : (i : Nat) < l.length := by
    rw [← hlen]
    exact i.isLt
  obtain ⟨hc, hp, hs⟩ := h i hi i.isLt
  have hpl2 : (l.get ⟨i, hi⟩).placed = true := by rw [← hp]; exact hpl
  have hsk2 : (l.get ⟨i, hi⟩).sunk = false := hs hsk
  obtain ⟨hbnd, hdisj⟩ := hok ⟨i, hi⟩ hpl2 hsk2
  constructor
  · intro c hcmem
    exact hbnd c (by rw [← hc]; exact hcmem)
  · intro j hne hplj hskj
    have hj : (j : Nat) < l.length := by
      rw [← hlen]
      exact j.isLt
    obtain ⟨hcj, hpj, hsj⟩ := h j hj j.isLt
    have hplj2 : (l.get ⟨j, hj⟩).placed = true := by rw [← hpj]; exact hplj
    have hskj2 : (l.get ⟨j, hj⟩).sunk = false := hsj hskj
    intro c hci hcj2
    have := hdisj ⟨j, hj⟩ (by simpa using hne) hplj2 hskj2 c (by rw [← hc]; exact hci)
    exact this (by rw [← hcj]; exact hcj2)

theorem uid_get_ne {l : List ShipInstance} (hN : (l.map (fun s => s.uid)).Nodup)
    {i j : Nat} (hi : i < l.length) (hj : j < l.length) (hne : i ≠ j) :
    (l.get ⟨i, hi⟩).uid ≠ (l.get ⟨j, hj⟩).uid := by
  intro h
  have hinj := List.nodup_iff_injective_get.mp hN
  have hmi : (i : Nat) < (l.map (fun s => s.uid)).length := by simpa using hi
  have hmj : (j : Nat) < (l.map (fun s => s.uid)).length := by simpa using hj
  have h1 : (l.map (fun s => s.uid)).get ⟨i, hmi⟩ = (l.get ⟨i, hi⟩).uid := by
    simp
  have h2 : (l.map (fun s => s.uid)).get ⟨j, hmj⟩ = (l.get ⟨j, hj⟩).uid := by
    simp
  have := @hinj ⟨i, hmi⟩ ⟨j, hmj⟩ (by rw [h1, h2, h])
  exact hne (by simpa using congrArg Fin.val this)

theorem canPlaceShip_spec {player : PlayerState} {ship : ShipInstance} {anchor : Coord}
    {orientation : Orientation}
    (h : canPlaceShip player ship anchor orientation = true) :
    ∀ c ∈ shipCells { ship with anchor := anchor, orientation := orientation },
      inBounds c = true ∧ ∀ s ∈ player.ships, s.uid ≠ ship.uid → s.placed = true →
        s.sunk = false → c ∉ shipCells s := by
  unfold canPlaceShip at h
  rw [List.all_eq_true] at h
  intro c hc
  have h2 := h c hc
  rw [Bool.and_eq_true, Bool.not_eq_true'] at h2
  refine ⟨h2.1, ?_⟩
  intro s hs hneq hpl hsk hcontra
  have hmemf : s ∈ player.ships.filter
      (fun s => s.uid != ship.uid && s.placed && !s.sunk) := by
    rw [List.mem_filter]
    refine ⟨hs, ?_⟩
    simp [hneq, hpl, hsk]
  have hany : (player.ships.filter
      (fun s => s.uid != ship.uid && s.placed && !s.sunk)).any
        (fun s => (shipCells s).contains c) = true := by
    rw [List.any_eq_true]
    exact ⟨s, hmemf, by simpa [List.contains_iff_exists_mem_beq] using hcontra⟩
  rw [h2.2] at hany
  cases hany

theorem placeShip_shipsOk {player : PlayerState}
    (hN : (player.ships.map (fun s => s.uid)).Nodup)
    (hok : ShipsOk player.ships) (uid : String) (a : Coord) (o : Orientation) :
    ShipsOk ((placeShip player uid a o).2).ships := by
  unfold placeShip
  cases hf : player.ships.find? (fun s => s.uid == uid) with
  | none => exact hok
  | some ship =>
    simp only [hf]
    split
    · exact hok
    · split
      · exact hok
      · next hcan =>
        have hcan2 : canPlaceShip player ship a o = true := by
          rcases Bool.eq_false_or_eq_true (canPlaceShip player ship a o) with hb | hb
          · exact hb
          · exact absurd (by rw [hb]; rfl) hcan
        have hspec := canPlaceShip_spec hcan2
        have huid : ship.uid = uid := by simpa using List.find?_some hf
        set p : ShipInstance → Bool := fun s => s.uid == uid with hp
        set f : ShipInstance → ShipInstance :=
          fun s => { s with anchor := a, orientation := o, placed := true } with hfdef
        intro i hpl hsk
        have hlen : (replaceFirst p f player.ships).length = player.ships.length :=
          replaceFirst_length p f player.ships
        have hi : (i : Nat) < player.ships.length := by
          rw [← hlen]
          exact i.isLt
        have hrel := replaceFirst_get p f player.ships i hi i.isLt
        have hgmem : player.ships.get ⟨i, hi⟩ ∈ player.ships := List.get_mem _ _ _
        rcases hrel with hsame | ⟨hpi, hchg⟩
        · -- unchanged ship at i
          have hpl2 : (player.ships.get ⟨i, hi⟩).placed = true := by rw [← hsame]; exact hpl
          have hsk2 : (player.ships.get ⟨i, hi⟩).sunk = false := by rw [← hsame]; exact hsk
          obtain ⟨hbnd, hdisj⟩ := hok ⟨i, hi⟩ hpl2 hsk2
          refine ⟨by rw [hsame]; exact hbnd, ?_⟩
          intro j hne hplj hskj
          have hj : (j : Nat) < player.ships.length := by
            rw [← hlen]
            exact j.isLt
          have hrelj := replaceFirst_get p f player.ships j hj j.isLt
          rcases hrelj with hsamej | ⟨hpj, hchgj⟩
          · rw [hsame, hsamej]
            exact hdisj ⟨j, hj⟩ (by simpa using hne) (by rw [← hsamej]; exact hplj)
              (by rw [← hsamej]; exact hskj)
          · -- j is the re-placed ship
            have hjuid : (player.ships.get ⟨j, hj⟩).uid = uid := by simpa [hp] using hpj
            have hjs : player.ships.get ⟨j, hj⟩ = ship :=
              List.inj_on_of_nodup_map hN (List.get_mem _ _ _)
                (List.mem_of_find?_eq_some hf) (by rw [hjuid, huid])
            have hcells : shipCells ((replaceFirst p f player.ships).get ⟨j, j.isLt⟩) =
                shipCells { ship with anchor := a, orientation := o } := by
              rw [hchgj]
              exact shipCells_congr (by rw [hjs]) rfl rfl
            intro c hci hcj
            rw [hcells] at hcj
            have hiuid : (player.ships.get ⟨i, hi⟩).uid ≠ uid := by
              rw [← hjuid]
              exact uid_get_ne hN hi hj (fun hh => (by simpa [hh] using hne : False))
            have := (hspec c hcj).2 (player.ships.get ⟨i, hi⟩) hgmem
              (by rw [huid]; exact hiuid) hpl2 hsk2
            rw [hsame] at hci
            exact this hci
        · -- i is the re-placed ship
          have hiuid : (player.ships.get ⟨i, hi⟩).uid = uid := by simpa [hp] using hpi
          have his : player.ships.get ⟨i, hi⟩ = ship :=
            List.inj_on_of_nodup_map hN (List.get_mem _ _ _)
              (List.mem_of_find?_eq_some hf) (by rw [hiuid, huid])
          have hcells : shipCells ((replaceFirst p f player.ships).get ⟨i, i.isLt⟩) =
              shipCells { ship with anchor := a, orientation := o } := by
            rw [hchg]
            exact shipCells_congr (by rw [his]) rfl rfl
          refine ⟨?_, ?_⟩
          · intro c hc
            rw [hcells] at hc
            exact (hspec c hc).1
          · intro j hne hplj hskj
            have hj : (j : Nat) < player.ships.length := by
              rw [← hlen]
              exact j.isLt
            have hrelj := replaceFirst_get p f player.ships j hj j.isLt
            rcases hrelj with hsamej | ⟨hpj, _⟩
            · intro c hci hcj
              rw [hcells] at hci
              rw [hsamej] at hcj hplj hskj
              have hjuid : (player.ships.get ⟨j, hj⟩).uid ≠ uid := by
                rw [← hiuid]
                exact uid_get_ne hN hj hi (fun hh => (by simpa [hh] using hne : False))
              exact (hspec c hci).2 (player.ships.get ⟨j, hj⟩) (List.get_mem _ _ _)
                (by rw [huid]; exact hjuid) hplj hskj hcj
            · have hjuid : (player.ships.get ⟨j, hj⟩).uid = uid := by simpa [hp] using hpj
              exfalso
              exact uid_get_ne hN hi hj (fun hh => (by simpa [hh] using hne : False))
                (by rw [hiuid, hjuid])

theorem StateInv_of_players_eq {st st2 : GameState} (h : st2.players = st.players)
    (hI : StateInv st) : StateInv st2 := by
  intro i
  rw [getP_eq_of_players_eq h i]
  exact hI i

theorem replaceFirst_damage_shipsOk {l : List ShipInstance} {dmg : Nat} {t : Coord}
    (hok : ShipsOk l) :
    ShipsOk (replaceFirst
      (fun s => s.placed && !s.sunk && (shipCells s).any fun c => c.x == t.x && c.y == t.y)
      (fun s => { s with hp := s.hp - dmg, sunk := (s.hp - dmg) == 0 }) l) := by
  refine ShipsOk_of_pointwise (replaceFirst_length _ _ _) ?_ hok
  intro i hi hi2
  rcases replaceFirst_get _ _ l i hi hi2 with hsame | ⟨hpi, hchg⟩
  · rw [hsame]
    exact ⟨rfl, rfl, fun h => h⟩
  · rw [hchg]
    refine ⟨shipCells_congr rfl rfl rfl, rfl, fun _ => ?_⟩
    rw [Bool.and_eq_true, Bool.and_eq_true, Bool.not_eq_true'] at hpi
    exact hpi.1.2

theorem resolveShot_preserves (st : GameState) (hI : StateInv st) (a : PlayerId)
    (uid : String) (t : Coord) : StateInv (resolveShot st a uid t).2 := by
  unfold resolveShot
  cases hf : (getP st a).ships.find? (fun s => s.uid == uid && !s.sunk && s.placed) with
  | none =>
    simp only [hf]
    exact hI
  | some ship =>
    simp only [hf]
    split
    · exact hI
    · cases hs : shipAt (getP st (otherPlayer a)) t with
      | none =>
        simp only [hs]
        exact StateInv_of_players_eq (players_logShot _ _ _ _) hI
      | some h =>
        simp only [hs]
        refine StateInv_of_players_eq (players_logShot _ _ _ _) ?_
        intro i
        rw [getP_setP]
        by_cases hia : i = a
        · rw [if_pos hia, creditKill_ships]
          exact hI a
        · rw [if_neg hia, getP_setP]
          by_cases hid : i = otherPlayer a
          · rw [if_pos hid]
            unfold applyDamage
            exact replaceFirst_damage_shipsOk (hI (otherPlayer a))
          · rw [if_neg hid]
            exact hI i

theorem uidsNodup_player {st : GameState} (hU : UidsNodup st) (p : PlayerId) :
    ((getP st p).ships.map (fun s => s.uid)).Nodup := by
  unfold UidsNodup allShips at hU
  rw [List.map_append] at hU
  fin_cases p
  · exact hU.of_append_left
  · exact hU.of_append_right

theorem placeShip_preserves (st : GameState) (hI : StateInv st) (hU : UidsNodup st)
    (pid : PlayerId) (uid : String) (a : Coord) (o : Orientation) :
    StateInv (setP st pid ((placeShip (getP st pid) uid a o).2)) := by
  intro i
  rw [getP_setP]
  by_cases hip : i = pid
  · rw [if_pos hip]
    exact placeShip_shipsOk (uidsNodup_player hU pid) (hI pid) uid a o
  · rw [if_neg hip]
    exact hI i

/-- The well-formedness property of phase-1 proposal entries. -/
def PropOrigin (st : GameState) (props : List (String × ShipInstance)) : Prop :=
  ∀ u prop, lookupProp props u = some prop →
    prop.uid = u ∧ ∃ ship, ship ∈ (getP st (prefixPid u)).ships ∧ ship.uid = u ∧
      ship.placed = true ∧ ship.sunk = false ∧
      (prop = ship ∨ ∃ order : MoveOrder, order.shipUid = u ∧ order.skip = false ∧
        canMoveShip st (prefixPid u) order = true ∧
        prop = { ship with anchor := order.dest, orientation := order.orientation })

theorem phase1_origin_aux (st : GameState) (orders : List MoveOrder) :
    ∀ acc : P1Acc, PropOrigin st acc.proposals →
      PropOrigin st (orders.foldl (processOrder st) acc).proposals := by
  induction orders with
  | nil => exact fun acc h => h
  | cons o os ih =>
    intro acc hacc
    rw [List.foldl_cons]
    refine ih _ ?_
    unfold processOrder
    cases hf : (getP st (prefixPid o.shipUid)).ships.find? (fun s => s.uid == o.shipUid) with
    | none =>
      simp only [hf]
      exact hacc
    | some t =>
      have htu : t.uid = o.shipUid := by simpa using List.find?_some hf
      have htm := List.mem_of_find?_eq_some hf
      simp only [hf]
      split
      · exact hacc
      · next hguard =>
        have hts : t.sunk = false ∧ t.placed = true := by
          rcases Bool.eq_false_or_eq_true t.sunk with h1 | h1 <;>
            rcases Bool.eq_false_or_eq_true t.placed with h2 | h2 <;>
            simp [h1, h2] at hguard ⊢
        split
        · next hskip =>
          intro u prop hl
          rw [lookupProp_cons] at hl
          by_cases hku : t.uid = u
          · rw [if_pos hku] at hl
            have hpt : prop = t := (Option.some.inj hl).symm
            refine ⟨by rw [hpt]; exact hku, t, ?_, hku, hts.2, hts.1, Or.inl hpt⟩
            have hou : o.shipUid = u := by rw [← htu, hku]
            rw [← hou]
            exact htm
          · rw [if_neg hku] at hl
            exact hacc u prop hl
        · split
          · next hskip hcan =>
            intro u prop hl
            rw [lookupProp_cons] at hl
            by_cases hku : t.uid = u
            · rw [if_pos hku] at hl
              have hpt : prop = { t with anchor := o.dest, orientation := o.orientation } :=
                (Option.some.inj hl).symm
              have hou : o.shipUid = u := by rw [← htu, hku]
              refine ⟨by rw [hpt]; exact hku, t, ?_, hku, hts.2, hts.1, Or.inr ⟨o, hou, ?_, ?_, hpt⟩⟩
              · rw [← hou]
                exact htm
              · cases hsk3 : o.skip with
                | false => rfl
                | true => exact absurd hsk3 hskip
              · rw [hou] at hcan
                exact hcan
            · rw [if_neg hku] at hl
              exact hacc u prop hl
          · exact fun u prop hl => hacc u prop hl

theorem phase1_origin (st : GameState) (orders : List MoveOrder) :
    PropOrigin st (phase1 st orders).proposals := by
  unfold phase1
  refine phase1_origin_aux st orders ⟨[], [], []⟩ ?_
  intro u prop hl
  cases hl

theorem canMoveShip_final {st : GameState} {pid : PlayerId} {order : MoveOrder}
    (h : canMoveShip st pid order = true) (hns : order.skip = false) :
    ∃ t, (getP st pid).ships.find?
        (fun s => s.uid == order.shipUid && s.placed && !s.sunk) = some t ∧
      ∀ c ∈ shipCells { t with anchor := order.dest, orientation := order.orientation },
        inBounds c = true ∧ occHas (playersList st) t.uid c = false := by
  unfold canMoveShip at h
  cases hf : (getP st pid).ships.find?
      (fun s => s.uid == order.shipUid && s.placed && !s.sunk) with
  | none =>
    rw [hf] at h
    cases h
  | some t =>
    rw [hf] at h
    rw [hns] at h
    simp only [Bool.false_eq_true, if_false] at h
    refine ⟨t, rfl, ?_⟩
    split at h
    · cases h
    · rw [Bool.and_eq_true, Bool.and_eq_true] at h
      have hfoot := h.2
      unfold footOk at hfoot
      rw [List.all_eq_true] at hfoot
      intro c hc
      have := hfoot c hc
      rw [Bool.and_eq_true, Bool.not_eq_true'] at this
      exact this

theorem phase2_eq_foldl (st : GameState) (props : List (String × ShipInstance))
    (rej : List String) :
    phase2 st props rej = (allShips st).foldl (passShip props) ⟨[], rej⟩ := by
  unfold phase2 playersList allShips
  rw [List.foldl_append]
  rfl

/-- The per-key occupancy property maintained by the end-position pass: the
cell key is claimed, either by the ship itself or by a pair of mutually
rejected ships. -/
def KeyClaimed (uid : String) (k : Int × Int) (acc : P2Acc) : Prop :=
  ∃ w, lookupOcc acc.endOcc k = some w ∧
    (w = uid ∨ (uid ∈ acc.rejected ∧ w ∈ acc.rejected))

theorem mem_of_containsStr {l : List String} {v : String} (h : l.contains v = true) :
    v ∈ l := by
  rcases List.contains_iff_exists_mem_beq.mp h with ⟨a, ha, hb⟩
  rw [eq_of_beq hb]
  exact ha

theorem containsStr_of_mem {l : List String} {v : String} (h : v ∈ l) :
    l.contains v = true :=
  List.contains_iff_exists_mem_beq.mpr ⟨v, h, by simp⟩

theorem pushUniq_subset {l : List String} {u : String} (v : String) (h : u ∈ l) :
    u ∈ pushUniq l v := by
  unfold pushUniq
  split
  · exact h
  · exact List.mem_append_left _ h

theorem mem_pushUniq_self (l : List String) (v : String) : v ∈ pushUniq l v := by
  unfold pushUniq
  split
  · next h => exact mem_of_containsStr h
  · exact List.mem_append_right _ (List.mem_singleton.mpr rfl)

theorem lookupOcc_cons (k0 : Int × Int) (v : String) (l : List ((Int × Int) × String))
    (k : Int × Int) :
    lookupOcc ((k0, v) :: l) k = if k0 = k then some v else lookupOcc l k := by
  unfold lookupOcc
  by_cases h : k0 = k
  · subst h
    rw [List.find?_cons_of_pos _ (by simp)]
    simp
  · rw [List.find?_cons_of_neg _ (by simpa using h)]
    simp [h]

theorem passCell_occ_stable {acc : P2Acc} {k : Int × Int} {w : String} (uid2 : String)
    (c : Coord) (h : lookupOcc acc.endOcc k = some w) :
    lookupOcc (passCell uid2 acc c).endOcc k = some w := by
  unfold passCell
  split
  · split
    · exact h
    · exact h
  · next heq =>
    simp only
    rw [lookupOcc_cons, if_neg]
    · exact h
    · intro hkk
      rw [hkk, h] at heq
      cases heq

theorem passCell_rej_mono {acc : P2Acc} {u : String} (uid2 : String) (c : Coord)
    (h : u ∈ acc.rejected) : u ∈ (passCell uid2 acc c).rejected := by
  unfold passCell
  split
  · split
    · exact pushUniq_subset _ (pushUniq_subset _ h)
    · exact h
  · exact h

theorem KeyClaimed_stable_passCell {uid : String} {k : Int × Int} {acc : P2Acc}
    (uid2 : String) (c : Coord) (h : KeyClaimed uid k acc) :
    KeyClaimed uid k (passCell uid2 acc c) := by
  rcases h with ⟨w, hw, hd⟩
  refine ⟨w, passCell_occ_stable uid2 c hw, ?_⟩
  rcases hd with hd | ⟨h1, h2⟩
  · exact Or.inl hd
  · exact Or.inr ⟨passCell_rej_mono uid2 c h1, passCell_rej_mono uid2 c h2⟩

theorem KeyClaimed_stable_cells {uid : String} {k : Int × Int} (uid2 : String)
    (cells : List Coord) :
    ∀ acc : P2Acc, KeyClaimed uid k acc →
      KeyClaimed uid k (cells.foldl (passCell uid2) acc) := by
  induction cells with
  | nil => exact fun acc h => h
  | cons c cs ih =>
    intro acc h
    rw [List.foldl_cons]
    exact ih _ (KeyClaimed_stable_passCell uid2 c h)

theorem KeyClaimed_stable_passShip {uid : String} {k : Int × Int}
    (props : List (String × ShipInstance)) (b : ShipInstance) {acc : P2Acc}
    (h : KeyClaimed uid k acc) : KeyClaimed uid k (passShip props acc b) := by
  unfold passShip
  split
  · exact h
  · exact KeyClaimed_stable_cells _ _ acc h

theorem KeyClaimed_stable_ships {uid : String} {k : Int × Int}
    (props : List (String × ShipInstance)) (ships : List ShipInstance) :
    ∀ acc : P2Acc, KeyClaimed uid k acc →
      KeyClaimed uid k (ships.foldl (passShip props) acc) := by
  induction ships with
  | nil => exact fun acc h => h
  | cons b bs ih =>
    intro acc h
    rw [List.foldl_cons]
    exact ih _ (KeyClaimed_stable_passShip props b h)

theorem passCells_claims (uid : String) (cells : List Coord) :
    ∀ (acc : P2Acc) (c : Coord), c ∈ cells →
      KeyClaimed uid (key c) (cells.foldl (passCell uid) acc) := by
  induction cells with
  | nil =>
    intro acc c hc
    cases hc
  | cons c0 cs ih =>
    intro acc c hc
    rw [List.foldl_cons]
    rcases List.mem_cons.mp hc with rfl | hcs
    · refine KeyClaimed_stable_cells uid cs _ ?_
      unfold passCell
      split
      · next e heq =>
        split
        · next hne =>
          exact ⟨e, heq, Or.inr ⟨mem_pushUniq_self _ _,
            pushUniq_subset _ (mem_pushUniq_self _ _)⟩⟩
        · next hne =>
          exact ⟨e, heq, Or.inl (not_not.mp hne)⟩
      · next heq =>
        refine ⟨uid, ?_, Or.inl rfl⟩
        simp only
        rw [lookupOcc_cons, if_pos rfl]
    · exact ih _ c hcs

theorem passShips_claims (props : List (String × ShipInstance))
    (ships : List ShipInstance) :
    ∀ acc : P2Acc, ∀ b ∈ ships, b.placed = true → b.sunk = false →
      ∀ k ∈ (shipCells ((lookupProp props b.uid).getD b)).map key,
        KeyClaimed ((lookupProp props b.uid).getD b).uid k
          (ships.foldl (passShip props) acc) := by
  induction ships with
  | nil =>
    intro acc b hb
    cases hb
  | cons b0 bs ih =>
    intro acc b hb hpl hsk k hk
    rw [List.foldl_cons]
    rcases List.mem_cons.mp hb with rfl | hbs
    · refine KeyClaimed_stable_ships props bs _ ?_
      unfold passShip
      rw [if_neg (by simp [hpl, hsk])]
      rcases List.mem_map.mp hk with ⟨c, hc, rfl⟩
      exact passCells_claims _ _ acc c hc
    · exact ih _ b hbs hpl hsk k hk

theorem phase2_collision (st : GameState) (props : List (String × ShipInstance))
    (rej1 : List String)
    (hkeys : ∀ u prop, lookupProp props u = some prop → prop.uid = u) :
    ∀ s ∈ allShips st, ∀ s2 ∈ allShips st,
      s.placed = true → s.sunk = false → s2.placed = true → s2.sunk = false →
      s.uid ≠ s2.uid →
      (∃ c, c ∈ shipCells ((lookupProp props s.uid).getD s) ∧
            c ∈ shipCells ((lookupProp props s2.uid).getD s2)) →
      s.uid ∈ (phase2 st props rej1).rejected ∧
      s2.uid ∈ (phase2 st props rej1).rejected := by
  intro s hs s2 hs2 hpl hsk hpl2 hsk2 hne hshare
  rcases hshare with ⟨c, hc1, hc2⟩
  rw [phase2_eq_foldl]
  have tagEq : ((lookupProp props s.uid).getD s).uid = s.uid := by
    cases hl : lookupProp props s.uid with
    | none => rfl
    | some prop => simpa using hkeys _ _ hl
  have tagEq2 : ((lookupProp props s2.uid).getD s2).uid = s2.uid := by
    cases hl : lookupProp props s2.uid with
    | none => rfl
    | some prop => simpa using hkeys _ _ hl
  have h1 := passShips_claims props (allShips st) ⟨[], rej1⟩ s hs hpl hsk (key c)
    (List.mem_map_of_mem key hc1)
  have h2 := passShips_claims props (allShips st) ⟨[], rej1⟩ s2 hs2 hpl2 hsk2 (key c)
    (List.mem_map_of_mem key hc2)
  rw [tagEq] at h1
  rw [tagEq2] at h2
  rcases h1 with ⟨w, hw, hd⟩
  rcases h2 with ⟨w2, hw2, hd2⟩
  have hww : w = w2 := Option.some.inj (hw.symm.trans hw2)
  subst hww
  rcases hd with hd | ⟨ha, hb⟩
  · rcases hd2 with hd2 | ⟨ha2, hb2⟩
    · exact absurd (hd.symm.trans hd2) hne
    · exact ⟨hd ▸ hb2, ha2⟩
  · rcases hd2 with hd2 | ⟨ha2, hb2⟩
    · exact ⟨ha, hd2 ▸ hb⟩
    · exact ⟨ha, ha2⟩

theorem commitShip_cases (rej : List String) (props : List (String × ShipInstance))
    (s : ShipInstance) :
    commitShip rej props s = s ∨
      (rej.contains s.uid = false ∧ ∃ prop, lookupProp props s.uid = some prop ∧
        prop ≠ s ∧ commitShip rej props s =
          { s with anchor := prop.anchor, orientation := prop.orientation }) := by
  unfold commitShip
  split
  · exact Or.inl rfl
  · next hcont =>
    split
    · exact Or.inl rfl
    · next prop heq =>
      split
      · exact Or.inl rfl
      · next hne =>
        exact Or.inr ⟨Bool.eq_false_iff.mpr hcont, prop, heq, hne, rfl⟩

theorem commitShip_fields (rej : List String) (props : List (String × ShipInstance))
    (s : ShipInstance) :
    (commitShip rej props s).typeId = s.typeId ∧
    (commitShip rej props s).placed = s.placed ∧
    (commitShip rej props s).sunk = s.sunk := by
  unfold commitShip
  split
  · exact ⟨rfl, rfl, rfl⟩
  · split
    · exact ⟨rfl, rfl, rfl⟩
    · split
      · exact ⟨rfl, rfl, rfl⟩
      · exact ⟨rfl, rfl, rfl⟩

theorem get_map_fn {l : List ShipInstance} (f : ShipInstance → ShipInstance) (i : Nat)
    (h : i < l.length) (h2 : i < (l.map f).length) :
    (l.map f).get ⟨i, h2⟩ = f (l.get ⟨i, h⟩) := by
  simp

theorem getP_mem_playersList (st : GameState) (q : PlayerId) :
    getP st q ∈ playersList st := by
  fin_cases q <;> simp [getP, playersList]

theorem occHas_true_of {st : GameState} {q : PlayerId} {s : ShipInstance}
    {ignore : String} {c : Coord} (hs : s ∈ (getP st q).ships) (hpl : s.placed = true)
    (hsk : s.sunk = false) (hne : s.uid ≠ ignore) (hc : c ∈ shipCells s) :
    occHas (playersList st) ignore c = true :=
  (occHas_iff (playersList st) ignore c).mpr
    ⟨getP st q, getP_mem_playersList st q, s, hs, hpl, hsk, hne, hc⟩

theorem moved_facts_aux {st : GameState} (hU : UidsNodup st)
    {P : List (String × ShipInstance)} (hPO : PropOrigin st P)
    {q : PlayerId} {s prop : ShipInstance} (hs : s ∈ (getP st q).ships)
    (hlk : lookupProp P s.uid = some prop) (hne : prop ≠ s) :
    ({ s with anchor := prop.anchor, orientation := prop.orientation } = prop) ∧
    ∀ c ∈ shipCells prop, inBounds c = true ∧
      occHas (playersList st) s.uid c = false := by
  obtain ⟨hpu, ship, hshipmem, hshipu, hshippl, hshipsk, hdisj⟩ := hPO s.uid prop hlk
  have hships : ship = s := uid_inj hU hshipmem hs hshipu
  rcases hdisj with hps | ⟨order, hou, hskip, hcan, hprop⟩
  · exact absurd (hps.trans hships) hne
  · rw [hships] at hprop
    obtain ⟨t, hfind, hcells⟩ := canMoveShip_final hcan hskip
    have htmem := List.mem_of_find?_eq_some hfind
    have hprd := List.find?_some hfind
    have htu : t.uid = order.shipUid := by
      simp only [Bool.and_eq_true, beq_iff_eq] at hprd
      exact hprd.1.1
    have hts : t = s := uid_inj hU htmem hs (htu.trans hou)
    rw [hts] at hcells
    constructor
    · rw [hprop]
    · intro c hc
      rw [hprop] at hc
      exact hcells c hc

theorem commit_cell_facts {st : GameState} (hU : UidsNodup st)
    {P : List (String × ShipInstance)} (hPO : PropOrigin st P) (R : List String)
    {q : PlayerId} {s : ShipInstance} (hs : s ∈ (getP st q).ships) :
    commitShip R P s = s ∨
    (R.contains s.uid = false ∧
     ∃ prop, lookupProp P s.uid = some prop ∧
       shipCells (commitShip R P s) = shipCells prop ∧
       ∀ c ∈ shipCells prop, inBounds c = true ∧
         occHas (playersList st) s.uid c = false) := by
  rcases commitShip_cases R P s with h | ⟨hc, prop, hlk, hne, hchg⟩
  · exact Or.inl h
  · obtain ⟨hrec, hfacts⟩ := moved_facts_aux hU hPO hs hlk hne
    refine Or.inr ⟨hc, prop, hlk, ?_, hfacts⟩
    rw [hchg, hrec]

theorem map_commit_shipsOk {st : GameState} (hU : UidsNodup st)
    {P : List (String × ShipInstance)} (hPO : PropOrigin st P) {R : List String}
    (hI : StateInv st)
    (hR : ∀ (p p2 : PlayerId), ∀ s ∈ (getP st p).ships, ∀ s2 ∈ (getP st p2).ships,
      s.placed = true → s.sunk = false → s2.placed = true → s2.sunk = false →
      s.uid ≠ s2.uid →
      (∃ c, c ∈ shipCells ((lookupProp P s.uid).getD s) ∧
            c ∈ shipCells ((lookupProp P s2.uid).getD s2)) →
      s.uid ∈ R)
    (q : PlayerId) :
    ShipsOk ((getP st q).ships.map (commitShip R P)) := by
  intro i hpl hsk
  obtain ⟨i, hi'⟩ := i
  have hi : i < (getP st q).ships.length := by simpa using hi'
  have hgeti := get_map_fn (commitShip R P) i hi hi'
  have hmi : (getP st q).ships.get ⟨i, hi⟩ ∈ (getP st q).ships := List.get_mem _ _ _
  rw [hgeti] at hpl hsk
  obtain ⟨-, hPfi, hSfi⟩ := commitShip_fields R P ((getP st q).ships.get ⟨i, hi⟩)
  have hpl0 : ((getP st q).ships.get ⟨i, hi⟩).placed = true := by rw [← hPfi]; exact hpl
  have hsk0 : ((getP st q).ships.get ⟨i, hi⟩).sunk = false := by rw [← hSfi]; exact hsk
  have hfi := commit_cell_facts hU hPO R hmi
  constructor
  · intro c hc
    rw [hgeti] at hc
    rcases hfi with hsame | ⟨hnci, propi, hlki, hclsi, hfi2⟩
    · rw [hsame] at hc
      exact ((hI q) ⟨i, hi⟩ hpl0 hsk0).1 c hc
    · rw [hclsi] at hc
      exact (hfi2 c hc).1
  · intro j hne hplj hskj
    obtain ⟨j, hj'⟩ := j
    have hj : j < (getP st q).ships.length := by simpa using hj'
    have hgetj := get_map_fn (commitShip R P) j hj hj'
    have hmj : (getP st q).ships.get ⟨j, hj⟩ ∈ (getP st q).ships := List.get_mem _ _ _
    rw [hgetj] at hplj hskj
    obtain ⟨-, hPfj, hSfj⟩ := commitShip_fields R P ((getP st q).ships.get ⟨j, hj⟩)
    have hplj0 : ((getP st q).ships.get ⟨j, hj⟩).placed = true := by rw [← hPfj]; exact hplj
    have hskj0 : ((getP st q).ships.get ⟨j, hj⟩).sunk = false := by rw [← hSfj]; exact hskj
    have hfj := commit_cell_facts hU hPO R hmj
    have hneji : j ≠ i := by simpa using hne
    have huidne : ((getP st q).ships.get ⟨i, hi⟩).uid ≠
        ((getP st q).ships.get ⟨j, hj⟩).uid :=
      uid_get_ne (uidsNodup_player hU q) hi hj (Ne.symm hneji)
    intro c hc hcj
    rw [hgeti] at hc
    rw [hgetj] at hcj
    rcases hfi with hsi | ⟨hnci, propi, hlki, hclsi, hfi2⟩ <;>
      rcases hfj with hsj | ⟨hncj, propj, hlkj, hclsj, hfj2⟩
    · rw [hsi] at hc
      rw [hsj] at hcj
      exact ((hI q) ⟨i, hi⟩ hpl0 hsk0).2 ⟨j, hj⟩ hneji hplj0 hskj0 c hc hcj
    · rw [hsi] at hc
      rw [hclsj] at hcj
      have hocc : occHas (playersList st)
          ((getP st q).ships.get ⟨j, hj⟩).uid c = false := (hfj2 c hcj).2
      have htrue := occHas_true_of hmi hpl0 hsk0 huidne hc
      rw [htrue] at hocc
      exact absurd hocc (by decide)
    · rw [hclsi] at hc
      rw [hsj] at hcj
      have hocc : occHas (playersList st)
          ((getP st q).ships.get ⟨i, hi⟩).uid c = false := (hfi2 c hc).2
      have htrue := occHas_true_of hmj hplj0 hskj0 (Ne.symm huidne) hcj
      rw [htrue] at hocc
      exact absurd hocc (by decide)
    · rw [hclsi] at hc
      rw [hclsj] at hcj
      have hmem := hR q q _ hmi _ hmj hpl0 hsk0 hplj0 hskj0 huidne
        ⟨c, by rw [hlki, Option.getD_some]; exact hc,
           by rw [hlkj, Option.getD_some]; exact hcj⟩
      have hcont := containsStr_of_mem hmem
      rw [hcont] at hnci
      exact absurd hnci (by decide)

theorem resolveMovement_preserves (st : GameState) (hI : StateInv st) (hU : UidsNodup st)
    (o1 o2 : List MoveOrder) : StateInv (resolveMovement st o1 o2).2 := by
  intro q
  rw [getP_resolveMovement]
  refine map_commit_shipsOk hU (phase1_origin st (o1 ++ o2)) hI ?_ q
  intro p p2 s hs s2 hs2 hpl hsk hpl2 hsk2 hne hshare
  exact (phase2_collision st (phase1 st (o1 ++ o2)).proposals
    (phase1 st (o1 ++ o2)).rejected
    (fun u prop h => (phase1_origin st (o1 ++ o2) u prop h).1)
    s (mem_allShips hs) s2 (mem_allShips hs2) hpl hsk hpl2 hsk2 hne hshare).1

/-- C3: every engine operation that rewrites ship positions — `placeShip`,
`resolveShot` and `resolveMovement` — preserves the spatial invariant: in a
game whose ship uids are unique, if every placed, unsunk ship occupies only
in-bounds cells and overlaps no other placed, unsunk ship of the same
fleet, the same holds after the operation. -/
theorem invariant_preservation (st : GameState) (hI : StateInv st) (hU : UidsNodup st) :
    (∀ (pid : PlayerId) (uid : String) (a : Coord) (o : Orientation),
      StateInv (setP st pid (placeShip (getP st pid) uid a o).2)) ∧
    (∀ (a : PlayerId) (uid : String) (t : Coord), StateInv (resolveShot st a uid t).2) ∧
    (∀ o1 o2 : List MoveOrder, StateInv (resolveMovement st o1 o2).2) :=
  ⟨fun pid uid a o => placeShip_preserves st hI hU pid uid a o,
   fun a uid t => resolveShot_preserves st hI a uid t,
   fun o1 o2 => resolveMovement_preserves st hI hU o1 o2⟩

/-- Witness for C3: the two-scout fixture satisfies both hypotheses, and
the invariant still holds after a movement round whose two orders collide. -/
theorem invariant_preservation_witness :
    StateInv stM ∧ UidsNodup stM ∧
      StateInv (resolveMovement stM [⟨"0-scout", ⟨0, 1⟩, Orientation.H, false⟩]
        [⟨"1-scout", ⟨0, 1⟩, Orientation.H, false⟩]).2 :=
  ⟨by unfold StateInv ShipsOk; decide, by unfold UidsNodup allShips; decide,
   (invariant_preservation stM (by unfold StateInv ShipsOk; decide)
     (by unfold UidsNodup allShips; decide)).2.2
     [⟨"0-scout", ⟨0, 1⟩, Orientation.H, false⟩]
     [⟨"1-scout", ⟨0, 1⟩, Orientation.H, false⟩]⟩

theorem mem_pushUniq_iff (l : List String) (v u : String) :
    u ∈ pushUniq l v ↔ u ∈ l ∨ u = v := by
  unfold pushUniq
  split
  · next hc =>
    constructor
    · exact Or.inl
    · rintro (h | rfl)
      · exact h
      · exact mem_of_containsStr hc
  · simp [List.mem_append]

theorem pushUniq_nodup {l : List String} (h : l.Nodup) (v : String) :
    (pushUniq l v).Nodup := by
  unfold pushUniq
  split
  · exact h
  · next hc =>
    rw [List.nodup_append]
    refine ⟨h, List.nodup_singleton v, ?_⟩
    intro a ha hb
    rw [List.mem_singleton] at hb
    subst hb
    exact hc (containsStr_of_mem ha)

theorem foldl_pushUniq_mem (l : List String) (u : String) :
    ∀ acc, u ∈ l.foldl pushUniq acc ↔ u ∈ acc ∨ u ∈ l := by
  induction l with
  | nil => simp
  | cons a as ih =>
    intro acc
    rw [List.foldl_cons, ih, mem_pushUniq_iff]
    constructor
    · rintro ((h | rfl) | h)
      · exact Or.inl h
      · exact Or.inr (by simp)
      · exact Or.inr (List.mem_cons_of_mem _ h)
    · rintro (h | h)
      · exact Or.inl (Or.inl h)
      · rcases List.mem_cons.mp h with rfl | h
        · exact Or.inl (Or.inr rfl)
        · exact Or.inr h

theorem foldl_pushUniq_nodup (l : List String) :
    ∀ acc : List String, acc.Nodup → (l.foldl pushUniq acc).Nodup := by
  induction l with
  | nil => exact fun acc h => h
  | cons a as ih =>
    intro acc hacc
    rw [List.foldl_cons]
    exact ih _ (pushUniq_nodup hacc a)

theorem mem_dedupKeepFirst (l : List String) (u : String) :
    u ∈ dedupKeepFirst l ↔ u ∈ l := by
  unfold dedupKeepFirst
  rw [foldl_pushUniq_mem]
  simp

theorem dedupKeepFirst_nodup (l : List String) : (dedupKeepFirst l).Nodup :=
  foldl_pushUniq_nodup l [] List.nodup_nil

theorem resolveMovement_fst (st : GameState) (o1 o2 : List MoveOrder) :
    (resolveMovement st o1 o2).1 =
      ⟨dedupKeepFirst (phase1 st (o1 ++ o2)).applied,
       dedupKeepFirst (phase2 st (phase1 st (o1 ++ o2)).proposals
         (phase1 st (o1 ++ o2)).rejected).rejected⟩ := rfl

theorem commitShip_rejected {rej : List String} {props : List (String × ShipInstance)}
    {s : ShipInstance} (h : rej.contains s.uid = true) :
    commitShip rej props s = s := by
  unfold commitShip
  rw [if_pos h]

/-- C4: in `resolveMovement`, any two different active ships whose tentative
end-position footprints share a cell both end up in the returned rejected
uid list (rejection is symmetric, with no priority between players or
ships); every rejected ship keeps its pre-move anchor and orientation; and
the returned applied and rejected uid lists contain no duplicates. -/
theorem movement_collision_spec (st : GameState) (o1 o2 : List MoveOrder) :
    (∀ (p p2 : PlayerId), ∀ s ∈ (getP st p).ships, ∀ s2 ∈ (getP st p2).ships,
      s.placed = true → s.sunk = false → s2.placed = true → s2.sunk = false →
      s.uid ≠ s2.uid →
      (∃ c, c ∈ shipCells (tentativeShip st (o1 ++ o2) s) ∧
            c ∈ shipCells (tentativeShip st (o1 ++ o2) s2)) →
      s.uid ∈ (resolveMovement st o1 o2).1.rejected ∧
      s2.uid ∈ (resolveMovement st o1 o2).1.rejected) ∧
    (∀ (q : PlayerId) (i : Nat) (s : ShipInstance),
      ((getP st q).ships)[i]? = some s →
      s.uid ∈ (resolveMovement st o1 o2).1.rejected →
      ∃ s', ((getP (resolveMovement st o1 o2).2 q).ships)[i]? = some s' ∧
        s'.anchor = s.anchor ∧ s'.orientation = s.orientation) ∧
    (resolveMovement st o1 o2).1.applied.Nodup ∧
    (resolveMovement st o1 o2).1.rejected.Nodup := by
  refine ⟨?_, ?_, ?_, ?_⟩
  · intro p p2 s hs s2 hs2 hpl hsk hpl2 hsk2 hne hshare
    have h := phase2_collision st (phase1 st (o1 ++ o2)).proposals
      (phase1 st (o1 ++ o2)).rejected
      (fun u prop hl => (phase1_origin st (o1 ++ o2) u prop hl).1)
      s (mem_allShips hs) s2 (mem_allShips hs2) hpl hsk hpl2 hsk2 hne hshare
    rw [resolveMovement_fst]
    exact ⟨(mem_dedupKeepFirst _ _).mpr h.1, (mem_dedupKeepFirst _ _).mpr h.2⟩
  · intro q i s hgs hmem
    rw [resolveMovement_fst] at hmem
    have hcont := containsStr_of_mem ((mem_dedupKeepFirst _ _).mp hmem)
    refine ⟨s, ?_, rfl, rfl⟩
    rw [getP_resolveMovement, List.getElem?_map, hgs]
    simp [commitShip_rejected hcont]
  · rw [resolveMovement_fst]
    exact dedupKeepFirst_nodup _
  · rw [resolveMovement_fst]
    exact dedupKeepFirst_nodup _

/-- Witness for C4: in the two-scout fixture both scouts order a move onto
the same anchor; both uids land in the rejected list and the rejected
player-0 scout keeps its anchor and orientation. -/
theorem movement_collision_spec_witness :
    ("0-scout" ∈ (resolveMovement stM [⟨"0-scout", ⟨0, 1⟩, Orientation.H, false⟩]
        [⟨"1-scout", ⟨0, 1⟩, Orientation.H, false⟩]).1.rejected ∧
     "1-scout" ∈ (resolveMovement stM [⟨"0-scout", ⟨0, 1⟩, Orientation.H, false⟩]
        [⟨"1-scout", ⟨0, 1⟩, Orientation.H, false⟩]).1.rejected) ∧
    (∃ s', ((getP (resolveMovement stM [⟨"0-scout", ⟨0, 1⟩, Orientation.H, false⟩]
          [⟨"1-scout", ⟨0, 1⟩, Orientation.H, false⟩]).2 0).ships)[0]? = some s' ∧
      s'.anchor = (mkShip "0-scout" ShipTypeId.scout 0 ⟨0, 0⟩ Orientation.H true).anchor ∧
      s'.orientation =
        (mkShip "0-scout" ShipTypeId.scout 0 ⟨0, 0⟩ Orientation.H true).orientation) := by
  have h := movement_collision_spec stM [⟨"0-scout", ⟨0, 1⟩, Orientation.H, false⟩]
    [⟨"1-scout", ⟨0, 1⟩, Orientation.H, false⟩]
  have hrej := h.1 0 1 (mkShip "0-scout" ShipTypeId.scout 0 ⟨0, 0⟩ Orientation.H true)
    (by decide) (mkShip "1-scout" ShipTypeId.scout 1 ⟨0, 3⟩ Orientation.H true)
    (by decide) (by decide) (by decide) (by decide) (by decide) (by decide)
    ⟨⟨0, 1⟩, by decide, by decide⟩
  refine ⟨⟨hrej.1, hrej.2⟩, ?_⟩
  exact h.2.1 0 0 (mkShip "0-scout" ShipTypeId.scout 0 ⟨0, 0⟩ Orientation.H true)
    (by decide) hrej.1

end Battleship
